import Mathlib

/-!
Verification of the sentence state machine (STM) of the vscoq language server,
a shallow embedding of `src/server/src/STM.ts`.

The embedding translates the class `CoqStateMachine` into pure functions over
an explicit state record.  External collaborators that are not part of the
sources (the backend transport `coqtop.ts`, the sentence node `STMSentence.ts`
and the position algebra `text-util.ts`) are modelled from the specification;
each such definition carries a doc comment starting with `Modelled from the
spec:`.  Backend responses are inputs to the operations, and the observable
behaviour (editor callbacks, backend requests, console output) is recorded in
an event trace inside the state.
-/

namespace STM

/-- A document position (line, character), as in vscode-languageserver. -/
structure Pos where
  line : Nat
  character : Nat
deriving Repr, DecidableEq

/-- A document range with inclusive start and exclusive stop position
(`end` in the sources; renamed because `end` is a Lean keyword). -/
structure Range where
  start : Pos
  stop : Pos
deriving Repr, DecidableEq

/-- Modelled from the spec: `text-util.ts` is not under `src/`.  Section 4.1:
positions are totally ordered by (line, character). -/
def positionIsBefore (p q : Pos) : Bool :=
  p.line < q.line || (p.line == q.line && p.character < q.character)

/-- Modelled from the spec: `text-util.ts` is not under `src/`. -/
def positionIsAfter (p q : Pos) : Bool :=
  positionIsBefore q p

/-- Modelled from the spec: `text-util.ts` is not under `src/`. -/
def positionIsEqual (p q : Pos) : Bool :=
  p.line == q.line && p.character == q.character

/-- Modelled from the spec: `text-util.ts` is not under `src/`. -/
def positionIsAfterOrEqual (p q : Pos) : Bool :=
  positionIsAfter p q || positionIsEqual p q

/-- Modelled from the spec: `text-util.ts` is not under `src/`. -/
def positionIsBeforeOrEqual (p q : Pos) : Bool :=
  positionIsBefore p q || positionIsEqual p q

/-- Helper for `positionAtRelative`: consume `offset` characters of the list,
advancing the position (a newline moves to column 0 of the next line). -/
def positionAtRelativeChars : Pos → List Char → Nat → Pos
  | p, _, 0 => p
  | p, [], _ + 1 => p
  | p, c :: cs, n + 1 =>
      positionAtRelativeChars
        (if c = '\n' then ⟨p.line + 1, 0⟩ else ⟨p.line, p.character + 1⟩) cs n

/-- Modelled from the spec: `text-util.ts` is not under `src/`.  Section 4.1:
given an anchor position and a string, return the position reached after
consuming `offset` characters of the text from the anchor. -/
def positionAtRelative (anchor : Pos) (text : String) (offset : Nat) : Pos :=
  positionAtRelativeChars anchor text.toList offset

/-- Modelled from the spec: `coq-proto.ts` is not under `src/`.  Section 3
gives the status set of a sentence. -/
inductive SentenceStatus where
  | ProcessingInput
  | Processed
  | InProgress
  | Incomplete
  | Complete
  | StateError
deriving Repr, DecidableEq

/-- Position of a status in the lifecycle order, used by `updateStatus`. -/
def SentenceStatus.rank : SentenceStatus → Nat
  | .ProcessingInput => 0
  | .Processed => 1
  | .InProgress => 2
  | .Incomplete => 3
  | .Complete => 4
  | .StateError => 5

/-- Modelled from the spec: `STMSentence.ts` is not under `src/`.  Section 4.2
gives the status lifecycle (`ProcessingInput` on creation, advancing as the
backend reports progress) and scenario 5 of section 8 shows that a status
recorded from buffered feedback (`Processed`) survives the `ProcessingInput`
stamp performed at add completion, so a status update never moves a sentence
back to an earlier lifecycle stage. -/
def updateStatus (cur new : SentenceStatus) : SentenceStatus :=
  if cur.rank ≤ new.rank then new else cur

/-- A sentence record: backend state id, command text, document range and
status.  The start timestamp kept by the sources is only used for profiling
and is not observable here, so it is not modelled. -/
structure Sent where
  stateId : Nat
  text : String
  range : Range
  status : SentenceStatus
deriving Repr, DecidableEq

/-- A feedback message buffered because its state id is not yet known. -/
structure FeedbackRecord where
  stateId : Nat
  status : SentenceStatus
  worker : String
deriving Repr, DecidableEq

/-- Observable effects of the STM: editor callbacks, backend requests and
console output, recorded in order of occurrence. -/
inductive Event where
  | coqDied (msg : String)
  | clearSentence (r : Range)
  | sentenceStatusUpdate (r : Range) (s : SentenceStatus)
  | coqAddCommand (text : String) (version : Nat) (parentId : Nat) (verbose : Bool)
  | coqEditAt (stateId : Nat)
  | coqQueryReq (query : String) (stateId : Option Nat)
  | coqReset
  | consoleWarn (msg : String)
  | consoleLog (msg : String)
  | typeErrorCrash
deriving Repr, DecidableEq

/-- The state of a `CoqStateMachine`.  The sentence tree is modelled, per
section 3 of the spec, as the list of live state ids in acceptance order
(root first): the parent of a sentence is its predecessor and its descendants
are the later entries.  `sentences` is the state-id index (the `Map`), and it
owns the sentence data.  `callbacksLive` records whether the callback record
is still set (`dispose()` clears it); firing a callback once it is cleared
raises a TypeError in the host language. -/
structure STMState where
  version : Nat
  root : Option Nat
  sentences : List Sent
  tree : List Nat
  focusedSentence : Option Nat
  lastSentence : Option Nat
  bufferedFeedback : List FeedbackRecord
  running : Bool
  callbacksLive : Bool
  coqtopRunning : Bool
  events : List Event
deriving Repr, DecidableEq

/-- Look a state id up in a sentence list (the `Map.get` of the sources). -/
def getSentList (m : List Sent) (id : Nat) : Option Sent :=
  m.find? (fun s => s.stateId == id)

/-- `this.sentences.get(id)`. -/
def getSent (st : STMState) (id : Nat) : Option Sent :=
  getSentList st.sentences id

/-- `this.sentences.set(s.stateId, s)`: replace the entry with the same key
if present, else append. -/
def mapSet (m : List Sent) (sent : Sent) : List Sent :=
  if m.any (fun s => s.stateId == sent.stateId) then
    m.map (fun s => if s.stateId == sent.stateId then sent else s)
  else
    m ++ [sent]

/-- `this.sentences.delete(id)`. -/
def mapDelete (m : List Sent) (id : Nat) : List Sent :=
  m.filter (fun s => s.stateId != id)

/-- Update the entry with the given key in place. -/
def mapUpdate (m : List Sent) (id : Nat) (f : Sent → Sent) : List Sent :=
  m.map (fun s => if s.stateId == id then f s else s)

/-- Modelled from the spec: `STMSentence.ts` is not under `src/`.  The
descendants of a sentence are the later entries of the acceptance order. -/
def treeAfter : List Nat → Nat → List Nat
  | [], _ => []
  | x :: xs, id => if x = id then xs else treeAfter xs id

/-- Modelled from the spec: `STMSentence.ts` is not under `src/`.
`truncate()` keeps the order up to and including the given sentence. -/
def treeUpTo : List Nat → Nat → List Nat
  | [], _ => []
  | x :: xs, id => if x = id then [x] else x :: treeUpTo xs id

/-- Modelled from the spec: `STMSentence.ts` is not under `src/`.  Section 3:
the parent of a sentence is its predecessor in acceptance order. -/
def treeParent : List Nat → Nat → Option Nat
  | [], _ => none
  | [_], _ => none
  | x :: y :: xs, id => if y = id then some x else treeParent (y :: xs) id

/-- Modelled from the spec: `STMSentence.ts` is not under `src/`.
`removeDescendentsUntil` yields the sentences strictly between two nodes
(all descendants when the end node is not found). -/
def treeBetween (tree : List Nat) (startId endId : Nat) : List Nat :=
  (treeAfter tree startId).takeWhile (fun x => x != endId)

/-- The tree left after removing the nodes of `treeBetween`. -/
def treeRemoveBetween (tree : List Nat) (startId endId : Nat) : List Nat :=
  treeUpTo tree startId ++ (treeAfter tree startId).dropWhile (fun x => x != endId)

/-- Modelled from the spec: `STMSentence.ts` is not under `src/`.
`Sentence.add` appends a new child under its parent; in the acceptance-order
model the child is inserted immediately after the parent (appended at the end
when the parent is not found, which does not occur on live parents). -/
def treeInsertAfter : List Nat → Nat → Nat → List Nat
  | [], _, newId => [newId]
  | x :: xs, parentId, newId =>
      if x = parentId then x :: newId :: xs else x :: treeInsertAfter xs parentId newId

/-- Invoke an editor callback.  `dispose()` sets `this.callbacks = undefined`,
so invoking a callback after disposal raises a TypeError in the host
language; this is recorded as a crash event. -/
def fire (st : STMState) (e : Event) : STMState :=
  if st.callbacksLive then { st with events := st.events ++ [e] }
  else { st with events := st.events ++ [Event.typeErrorCrash] }

/-- Record a backend request or console message in the trace. -/
def emitReq (st : STMState) (e : Event) : STMState :=
  { st with events := st.events ++ [e] }

/-- `dispose()`: warn if still running, stop running, clear the index, the
feedback buffer, the callbacks and the focus, and dispose the backend.  The
cleared fields are `undefined` in the sources; they are modelled as emptied,
and `callbacksLive` records that the callback record is gone. -/
def dispose (st : STMState) : STMState :=
  let st1 :=
    if st.running then
      { st with events := st.events ++
          [Event.consoleWarn "The STM manager is being disposed before being shut down"] }
    else st
  { st1 with running := false, callbacksLive := false, sentences := [],
             bufferedFeedback := [], focusedSentence := none, coqtopRunning := false }

/-- `handleInconsistentState(error)`: notify `coqDied` with an
"Inconsistent state: " message, then dispose. -/
def handleInconsistentState (st : STMState) (error : String) : STMState :=
  dispose (fire st (Event.coqDied ("Inconsistent state: " ++ error)))

/-- `deleteSentence(sent)`: fire `clearSentence` for the range, then delete
the entry from the state-id index. -/
def deleteSentence (st : STMState) (sent : Sent) : STMState :=
  let st1 := fire st (Event.clearSentence sent.range)
  { st1 with sentences := mapDelete st1.sentences sent.stateId }

/-- Delete one sentence given by state id (the rewind loops of the sources
iterate over sentence objects; the id is resolved through the index, where
every live sentence is registered). -/
def deleteSentById (st : STMState) (id : Nat) : STMState :=
  match getSent st id with
  | some s => deleteSentence st s
  | none => st

/-- Delete a list of sentences in order. -/
def deleteFold (st : STMState) (ids : List Nat) : STMState :=
  ids.foldl deleteSentById st

/-- `rewindTo(newLast)`: delete every descendant of the sentence, truncate
the tree, and make the sentence both last and focused. -/
def rewindTo (st : STMState) (newLast : Nat) : STMState :=
  let st1 := deleteFold st (treeAfter st.tree newLast)
  { st1 with tree := treeUpTo st1.tree newLast,
             lastSentence := some newLast, focusedSentence := some newLast }

/-- `rewindRange(start, end)`: delete the sentences strictly between the two
nodes, leaving focus and last sentence untouched. -/
def rewindRange (st : STMState) (startId endId : Nat) : STMState :=
  let st1 := deleteFold st (treeBetween st.tree startId endId)
  { st1 with tree := treeRemoveBetween st1.tree startId endId }

/-- One step of the `applyBufferedFeedback` loop (the `forEach` body of the
sources): apply a buffered record to its sentence, warning on an unknown id,
and fire `sentenceStatusUpdate` with the updated status. -/
def applyFeedbackStep (acc : STMState) (fb : FeedbackRecord) : STMState :=
  match getSent acc fb.stateId with
  | none =>
      { acc with events := acc.events ++
          [Event.consoleWarn "Received buffered feedback for unknown stateId"] }
  | some s =>
      let s2 := { s with status := updateStatus s.status fb.status }
      let acc1 := { acc with sentences := mapSet acc.sentences s2 }
      fire acc1 (Event.sentenceStatusUpdate s2.range s2.status)

/-- `applyBufferedFeedback()`: apply every buffered record to its sentence
(warning on unknown ids), firing `sentenceStatusUpdate` with the updated
status, then clear the buffer. -/
def applyBufferedFeedback (st : STMState) : STMState :=
  let st1 := st.bufferedFeedback.foldl applyFeedbackStep st
  { st1 with bufferedFeedback := [] }

/-- `onCoqStateStatusUpdate(stateId, route, status, worker)`: update a known
sentence and notify, or buffer the feedback for an unknown state id. -/
def onCoqStateStatusUpdate (st : STMState) (stateId : Nat) (_route : Nat)
    (status : SentenceStatus) (worker : String) : STMState :=
  match getSent st stateId with
  | some s =>
      let s2 := { s with status := updateStatus s.status status }
      fire { st with sentences := mapSet st.sentences s2 }
        (Event.sentenceStatusUpdate s2.range s2.status)
  | none =>
      { st with bufferedFeedback := st.bufferedFeedback ++ [⟨stateId, status, worker⟩] }

/-- `getFocusedPosition()`: (0,0) when there is no focused sentence, else the
range end of the focused sentence (resolved through the index, which holds
every live sentence). -/
def getFocusedPosition (st : STMState) : Pos :=
  match st.focusedSentence.bind (getSent st) with
  | none => ⟨0, 0⟩
  | some s => s.range.stop

/-- The backend response to `coqAddCommand`: either a new state id with an
optional unfocused state id, or a failure carrying an optional fallback state
id, a message and an offset range within the submitted text. -/
inductive AddResponse where
  | value (stateId : Nat) (unfocusedStateId : Option Nat)
  | failure (stateId : Option Nat) (message : String) (rangeStart rangeStop : Nat)
deriving Repr, DecidableEq

/-- The backend response to `coqEditAt`: success optionally carries a
`newFocus` with the qed state id; failure carries a fallback state id. -/
inductive EditAtResponse where
  | value (qedStateId : Option Nat)
  | failure (stateId : Option Nat) (message : String) (rangeStart rangeStop : Nat)
deriving Repr, DecidableEq

/-- Result of `addCommand`: success with the new sentence id and the
unfocused flag, the `InconsistentState` exception, the `FailValue` error, or
a TypeError escaping (only reachable off the modelled invariants). -/
inductive AddOutcome where
  | ok (sentenceId : Nat) (unfocused : Bool)
  | inconsistent (msg : String)
  | failValue (message : String) (range : Range)
  | crash
deriving Repr, DecidableEq

/-- `gotoErrorFallbackState(stateId)`: resolve the sentence before the error,
issue edit-at, and rewind to it; any exception (an edit-at failure, or the
TypeError from rewinding to an unknown sentence) is handled as an
inconsistent state. -/
def gotoErrorFallbackState (st : STMState) (stateId : Nat) (resp : EditAtResponse) : STMState :=
  let beforeErrorSentence := getSent st stateId
  let st1 := emitReq st (Event.coqEditAt stateId)
  match resp with
  | EditAtResponse.value _ =>
      match beforeErrorSentence with
      | some s => rewindTo st1 s.stateId
      | none => handleInconsistentState st1 "TypeError: cannot read a property of undefined"
  | EditAtResponse.failure _ m _ _ => handleInconsistentState st1 m

/-- A parsed command: text plus document range. -/
structure Command where
  text : String
  range : Range
deriving Repr, DecidableEq

/-- The success continuation of `addCommand` (lines 374-394 of the sources),
factored out: create the new sentence (status `ProcessingInput` on creation,
per the spec) as child of the parent and index it, drain the feedback
buffer, apply the `ProcessingInput` stamp, update the last sentence when the
new range start is at or after the previous last range end, and set the
focus from the truthiness-tested unfocused state id. -/
def addCommandSuccess (st1 : STMState) (parentId stateId : Nat)
    (unfocusedStateId : Option Nat) (command : Command) : STMState × AddOutcome :=
  let newSent : Sent := ⟨stateId, command.text, command.range, SentenceStatus.ProcessingInput⟩
  let st2 := { st1 with tree := treeInsertAfter st1.tree parentId stateId,
                        sentences := mapSet st1.sentences newSent }
  let st3 := applyBufferedFeedback st2
  let st4 := { st3 with
    sentences := mapUpdate st3.sentences stateId
      (fun s => { s with status := updateStatus s.status SentenceStatus.ProcessingInput }) }
  let st5 :=
    match st4.lastSentence.bind (getSent st4) with
    | some lastS =>
        if positionIsAfterOrEqual newSent.range.start lastS.range.stop then
          { st4 with lastSentence := some stateId }
        else st4
    | none => st4
  let st6 :=
    match unfocusedStateId with
    | some u =>
        if u != 0 then
          { st5 with focusedSentence := if (getSent st5 u).isSome then some u else none }
        else { st5 with focusedSentence := some stateId }
    | none => { st5 with focusedSentence := some stateId }
  (st6, AddOutcome.ok stateId unfocusedStateId.isSome)

/-- `addCommand(command, verbose)`.  The focused sentence is the parent; if
the command does not start exactly at its range end, `throwInconsistentState`
fires `coqDied`, disposes and raises.  Otherwise the command is submitted;
on success a new sentence (status `ProcessingInput` on creation, per the
spec) is inserted as child of the parent and indexed, the feedback buffer is
drained, the `ProcessingInput` stamp is applied, the last sentence is updated
when the new range start is at or after the previous last range end, and the
focus moves to the unfocused state id (when truthy, i.e. present and
nonzero) or to the new sentence.  On failure, a truthy fallback state id is
handled by `gotoErrorFallbackState` and a `FailValue` with the translated
error range is raised. -/
def addCommand (st : STMState) (command : Command) (verbose : Bool)
    (resp : AddResponse) (editAt : Nat → EditAtResponse) : STMState × AddOutcome :=
  match st.focusedSentence.bind (getSent st) with
  | none => (st, AddOutcome.crash)
  | some parent =>
    if !(positionIsEqual parent.range.stop command.range.start) then
      (dispose (fire st (Event.coqDied
          ("Inconsistent state: " ++ "Can only add a comand to the current focus"))),
       AddOutcome.inconsistent "Can only add a comand to the current focus")
    else
      let st1 := emitReq st (Event.coqAddCommand command.text st.version parent.stateId verbose)
      match resp with
      | AddResponse.value stateId unfocusedStateId =>
        addCommandSuccess st1 parent.stateId stateId unfocusedStateId command
      | AddResponse.failure errStateId message rStart rStop =>
        let stF :=
          match errStateId with
          | some fid =>
              if fid != 0 then gotoErrorFallbackState st1 fid (editAt fid) else st1
          | none => st1
        (stF, AddOutcome.failValue message
          ⟨positionAtRelative command.range.start command.text rStart,
           positionAtRelative command.range.start command.text rStop⟩)

/-- `focusSentence(sentence)`: a no-op when the sentence already has focus;
otherwise issue edit-at and either remove the open range up to the qed
sentence (`newFocus` present) or rewind the whole tree, then set the focus.
An edit-at failure falls back on a truthy fallback state id, without setting
the focus. -/
def focusSentence (st : STMState) (targetId : Nat) (resp : EditAtResponse)
    (fallback : Nat → EditAtResponse) : STMState :=
  if st.focusedSentence == some targetId then st
  else
    let st1 := emitReq st (Event.coqEditAt targetId)
    match resp with
    | EditAtResponse.value newFocus =>
        let st2 :=
          match newFocus with
          | some qedId => rewindRange st1 targetId qedId
          | none => rewindTo st1 targetId
        { st2 with focusedSentence := some targetId }
    | EditAtResponse.failure errStateId _ _ _ =>
        match errStateId with
        | some fid =>
            if fid != 0 then gotoErrorFallbackState st1 fid (fallback fid) else st1
        | none => st1

/-- `cancelSentence(sentence)`: focus the parent.  The parent of the root is
null, and `focusSentence(null)` is silently caught in the sources (the
TypeError raised while reading the state id lands in its catch, which does
nothing for a falsy fallback id). -/
def cancelSentence (st : STMState) (sentId : Nat) (editAt : Nat → EditAtResponse)
    (fallback : Nat → EditAtResponse) : STMState :=
  match treeParent st.tree sentId with
  | some p => focusSentence st p (editAt p) fallback
  | none => st

/-- `initialize(rootStateId)`: raises (returns a message) when already
initialized or when the STM has died; otherwise creates the root sentence
(no text, zero range, per the spec) and the index, and focuses it. -/
def initializeSTM (st : STMState) (rootStateId : Nat) : STMState × Option String :=
  if st.root.isSome then (st, some "STM is already initialized.")
  else if !st.running then
    (st, some "Cannot reinitialize the STM once it has died; create a new one.")
  else
    let rootSent : Sent := ⟨rootStateId, "", ⟨⟨0, 0⟩, ⟨0, 0⟩⟩, SentenceStatus.ProcessingInput⟩
    ({ st with root := some rootStateId,
               sentences := [rootSent],
               tree := [rootStateId],
               focusedSentence := some rootStateId,
               lastSentence := some rootStateId }, none)

/-- Result of `validateState`: the boolean of the sources, or a raised
string. -/
inductive ValidateOutcome where
  | ok (ready : Bool)
  | err (msg : String)
deriving Repr, DecidableEq

/-- `validateState(initialize)`: raise when shut down and asked to
initialize; report not-ready when shut down; report ready when the backend
runs; otherwise on `initialize` reset the backend (which restarts it) and
build the root. -/
def validateState (st : STMState) (init : Bool) (resetStateId : Nat) :
    STMState × ValidateOutcome :=
  if !st.running && init then
    (st, ValidateOutcome.err "Cannot perform operation: coq STM manager has been shut down.")
  else if !st.running then (st, ValidateOutcome.ok false)
  else if st.coqtopRunning then (st, ValidateOutcome.ok true)
  else if init then
    let st1 := { emitReq st Event.coqReset with coqtopRunning := true }
    match initializeSTM st1 resetStateId with
    | (st2, some m) => (st2, ValidateOutcome.err m)
    | (st2, none) => (st2, ValidateOutcome.ok true)
  else (st, ValidateOutcome.ok false)

/-- A `TextDocumentContentChangeEvent`: the replaced range plus new text. -/
structure TextChange where
  range : Range
  text : String
deriving Repr, DecidableEq

/-- Insert a change into a list kept in decreasing order of start position. -/
def insertDesc (c : TextChange) : List TextChange → List TextChange
  | [] => [c]
  | d :: ds =>
      if positionIsAfter c.range.start d.range.start then c :: d :: ds
      else d :: insertDesc c ds

/-- The `changes.sort(...)` of `applyChanges`: changes with greater start
position come first. -/
def sortChangesDesc : List TextChange → List TextChange
  | [] => []
  | c :: cs => insertDesc c (sortChangesDesc cs)

/-- Modelled from the spec: `text-util.ts` is not under `src/`.  Count of a
character in a string. -/
def countChar (s : String) (c : Char) : Nat :=
  s.toList.count c

/-- Modelled from the spec: `text-util.ts` is not under `src/`.  Length of
the last line of a string. -/
def lastLineLength (s : String) : Nat :=
  (s.toList.reverse.takeWhile (fun c => c != '\n')).length

/-- Modelled from the spec: `text-util.ts` is not under `src/`.  Section 4.1
`toRangeDelta`: a position at or after the end of an edit shifts by the line
delta, and by the character delta when it sits on the last affected line. -/
def shiftedPos (c : TextChange) (p : Pos) : Pos :=
  if positionIsAfterOrEqual p c.range.stop then
    let nl := countChar c.text '\n'
    let endPos : Pos :=
      if nl = 0 then ⟨c.range.start.line, c.range.start.character + c.text.length⟩
      else ⟨c.range.start.line + nl, lastLineLength c.text⟩
    if p.line = c.range.stop.line then
      ⟨endPos.line + (p.line - c.range.stop.line),
       endPos.character + (p.character - c.range.stop.character)⟩
    else ⟨p.line + endPos.line - c.range.stop.line, p.character⟩
  else p

/-- Does the change range intersect the interior of the sentence range (not
merely touch its boundary)? -/
def changeIntersectsInterior (s : Sent) (c : TextChange) : Bool :=
  positionIsBefore c.range.start s.range.stop && positionIsBefore s.range.start c.range.stop

/-- Modelled from the spec: `STMSentence.ts` is not under `src/`.  Section
4.2 `applyTextChanges`: a change intersecting the interior of the sentence
invalidates it; otherwise the changes lie before the sentence and shift its
range, without invalidating it. -/
def applyTextChangesModel (s : Sent) (cs : List TextChange) : Sent × Bool :=
  if cs.any (fun c => changeIntersectsInterior s c) then (s, true)
  else
    let r := cs.foldl (fun r c => (⟨shiftedPos c r.start, shiftedPos c r.stop⟩ : Range)) s.range
    ({ s with range := r }, false)

/-- The inner walk of `applyChanges`: from the last sentence up through its
ancestors; at each sentence shift away the leading changes starting at or
after its range end, stop when none remain, apply the rest, and cancel the
sentence when they invalidated it.  The next node is the parent recorded
before the cancellation (the sources read the parent pointer of the visited
node, which rewinds leave intact).  The fuel bounds the walk by the tree
size; `getSent` cannot miss on a live walk (a miss would be a TypeError,
handled by the surrounding catch as an inconsistent state). -/
def applyChangesLoop (atc : Sent → List TextChange → Sent × Bool)
    (editAt : Nat → EditAtResponse) (fallback : Nat → EditAtResponse) :
    Nat → STMState → Option Nat → List TextChange → STMState
  | 0, st, _, _ => st
  | _ + 1, st, none, _ => st
  | fuel + 1, st, some curId, changes =>
    match getSent st curId with
    | none => handleInconsistentState st "TypeError: cannot read a property of undefined"
    | some cur =>
      let parentId := treeParent st.tree curId
      let remaining :=
        changes.dropWhile (fun c => positionIsAfterOrEqual c.range.start cur.range.stop)
      if remaining.isEmpty then st
      else
        let ab := atc cur remaining
        let st1 := { st with sentences := mapSet st.sentences ab.1 }
        let st2 := if ab.2 then cancelSentence st1 curId editAt fallback else st1
        applyChangesLoop atc editAt fallback fuel st2 parentId remaining

/-- `applyChanges(changes, newVersion)`: nothing to do when not running or
when there are no changes; otherwise sort the changes with greater start
first, walk the ancestors of the last sentence, and stamp the new document
version.  (The `deltas` computed by the sources are never used.)  On an
uninitialized STM the walk raises a TypeError, handled as an inconsistent
state. -/
def applyChanges (st : STMState) (changes : List TextChange) (newVersion : Nat)
    (atc : Sent → List TextChange → Sent × Bool)
    (editAt : Nat → EditAtResponse) (fallback : Nat → EditAtResponse) : STMState :=
  if !st.running || changes.isEmpty then st
  else
    let sorted := sortChangesDesc changes
    let st1 :=
      match st.lastSentence with
      | none => handleInconsistentState st "TypeError: cannot read a property of undefined"
      | some lastId => applyChangesLoop atc editAt fallback (st.tree.length + 1) st (some lastId) sorted
    { st1 with version := newVersion }

/-- The edit list is in decreasing order of start position (later edits
first). -/
def sortedDesc (l : List TextChange) : Prop :=
  l.Pairwise (fun a b => positionIsBefore a.range.start b.range.start = false)

/-- Modelled from the spec: the walk of section 4.5, stated with the words
of the (amended) claim: at each sentence keep only the edits that start
strictly before the sentence range end, stop when none remain, apply them,
and when they invalidate the sentence cancel it — the cancel focuses the
parent, which issues a backend edit-at unless the parent is already the
focused sentence (in which case it is a no-op). -/
def reconcileLoop (atc : Sent → List TextChange → Sent × Bool)
    (editAt : Nat → EditAtResponse) (fallback : Nat → EditAtResponse) :
    Nat → STMState → Option Nat → List TextChange → STMState
  | 0, st, _, _ => st
  | _ + 1, st, none, _ => st
  | fuel + 1, st, some curId, changes =>
    match getSent st curId with
    | none => handleInconsistentState st "TypeError: cannot read a property of undefined"
    | some cur =>
      let parentId := treeParent st.tree curId
      let remaining :=
        changes.filter (fun c => positionIsBefore c.range.start cur.range.stop)
      if remaining.isEmpty then st
      else
        let ab := atc cur remaining
        let st1 := { st with sentences := mapSet st.sentences ab.1 }
        let st2 := if ab.2 then cancelSentence st1 curId editAt fallback else st1
        reconcileLoop atc editAt fallback fuel st2 parentId remaining

/-- Result of a public operation: success, a raised string, a `FailValue`,
an `InconsistentState`, or an escaping TypeError. -/
inductive OpOutcome where
  | ok
  | error (msg : String)
  | failValue (message : String) (range : Range)
  | inconsistent (msg : String)
  | crash
deriving Repr, DecidableEq

/-- The loop of `iterateAdvanceFocus`: take the next command, stop when the
iterate condition fails, add the command, and continue — restarting the
command sequence from the new focus when the add reported an unfocused jump.
The command sequence is a pure function from anchor (and optional end) to
the finite list of parsed commands; the advance-ahead of the sources only
overlaps parsing with backend work and does not change which commands are
consumed.  `k` counts the backend add requests, indexing the response
oracle. -/
def iafLoop (cond : Command → Bool → Bool) (seq : Pos → Option Pos → List Command)
    (verbose : Bool) (endP : Option Pos) (addResp : Nat → AddResponse)
    (editAt : Nat → EditAtResponse) :
    Nat → STMState → List Command → Bool → Nat → STMState × OpOutcome
  | 0, st, _, _, _ => (st, OpOutcome.ok)
  | _ + 1, st, [], _, _ => (st, OpOutcome.ok)
  | fuel + 1, st, cmd :: rest, contiguousFocus, k =>
    if !(cond cmd contiguousFocus) then (st, OpOutcome.ok)
    else
      match addCommand st cmd verbose (addResp k) editAt with
      | (st1, AddOutcome.ok _ unfocused) =>
          if unfocused then
            iafLoop cond seq verbose endP addResp editAt fuel st1
              (seq (getFocusedPosition st1) endP) false (k + 1)
          else
            iafLoop cond seq verbose endP addResp editAt fuel st1 rest true (k + 1)
      | (st1, AddOutcome.inconsistent m) => (st1, OpOutcome.inconsistent m)
      | (st1, AddOutcome.failValue m r) => (st1, OpOutcome.failValue m r)
      | (st1, AddOutcome.crash) => (st1, OpOutcome.crash)

/-- `iterateAdvanceFocus(params)`. -/
def iterateAdvanceFocus (st : STMState) (cond : Command → Bool → Bool)
    (seq : Pos → Option Pos → List Command) (verbose : Bool) (endP : Option Pos)
    (addResp : Nat → AddResponse) (editAt : Nat → EditAtResponse) (fuel : Nat) :
    STMState × OpOutcome :=
  iafLoop cond seq verbose endP addResp editAt fuel st
    (seq (getFocusedPosition st) endP) true 0

/-- `stepForward(commandSequence, verbose)`: validate (initializing if
needed), then add the one command that starts at the current focus. -/
def stepForward (st : STMState) (commandSequence : Pos → Option Pos → List Command)
    (verbose : Bool) (resetStateId : Nat) (addResp : Nat → AddResponse)
    (editAt : Nat → EditAtResponse) (fuel : Nat) : STMState × OpOutcome :=
  match validateState st true resetStateId with
  | (st1, ValidateOutcome.err m) => (st1, OpOutcome.error m)
  | (st1, ValidateOutcome.ok _) =>
    let currentFocus := getFocusedPosition st1
    iterateAdvanceFocus st1 (fun command _ => positionIsEqual command.range.start currentFocus)
      commandSequence verbose none addResp editAt fuel

/-- `stepBackward()`: validate, then cancel the focused sentence. -/
def stepBackward (st : STMState) (resetStateId : Nat) (editAt : Nat → EditAtResponse)
    (fallback : Nat → EditAtResponse) : STMState × OpOutcome :=
  match validateState st true resetStateId with
  | (st1, ValidateOutcome.err m) => (st1, OpOutcome.error m)
  | (st1, ValidateOutcome.ok _) =>
    match st1.focusedSentence with
    | some f => (cancelSentence st1 f editAt fallback, OpOutcome.ok)
    | none => (st1, OpOutcome.crash)

/-- Modelled from the spec: `STMSentence.ts` is not under `src/`.
`sentence.isBefore(pos)`: the sentence lies entirely before the position. -/
def sentIsBefore (s : Sent) (p : Pos) : Bool :=
  positionIsBeforeOrEqual s.range.stop p

/-- Helper for `getParentSentence`: walk the descendants of the root; the
first sentence not before the position yields its parent (the previous
node); the root is returned when the walk completes. -/
def gpsAux (st : STMState) (position : Pos) : Nat → List Nat → Option Nat
  | _, [] => st.root
  | prev, id :: rest =>
    match getSent st id with
    | none => none
    | some s => if !(sentIsBefore s position) then some prev else gpsAux st position id rest

/-- `getParentSentence(position)` (returning the state id). -/
def getParentSentenceId (st : STMState) (position : Pos) : Option Nat :=
  match st.tree with
  | [] => none
  | rootId :: rest => gpsAux st position rootId rest

/-- `interpretToPoint(position, commandSequence)`: validate, advance while
commands end at or before the position, and when the focus overshot the
position, focus back to the parent sentence at the position. -/
def interpretToPoint (st : STMState) (position : Pos)
    (commandSequence : Pos → Option Pos → List Command) (resetStateId : Nat)
    (addResp : Nat → AddResponse) (editAt : Nat → EditAtResponse)
    (fallback : Nat → EditAtResponse) (fuel : Nat) : STMState × OpOutcome :=
  match validateState st true resetStateId with
  | (st1, ValidateOutcome.err m) => (st1, OpOutcome.error m)
  | (st1, ValidateOutcome.ok _) =>
    match iterateAdvanceFocus st1
        (fun command _ => positionIsAfterOrEqual position command.range.stop)
        commandSequence true (some position) addResp editAt fuel with
    | (st2, OpOutcome.ok) =>
        if positionIsBefore position (getFocusedPosition st2) then
          match getParentSentenceId st2 position with
          | some pid => (focusSentence st2 pid (editAt pid) fallback, OpOutcome.ok)
          | none => (st2, OpOutcome.crash)
        else (st2, OpOutcome.ok)
    | (st2, out) => (st2, out)

/-- `doQuery(query, position?)`: validate, resolve the optional position to
a state id through `getParentSentence`, and issue the query. -/
def doQuery (st : STMState) (query : String) (position : Option Pos)
    (resetStateId : Nat) : STMState × OpOutcome :=
  match validateState st true resetStateId with
  | (st1, ValidateOutcome.err m) => (st1, OpOutcome.error m)
  | (st1, ValidateOutcome.ok _) =>
    match position with
    | none => (emitReq st1 (Event.coqQueryReq query none), OpOutcome.ok)
    | some p =>
      match getParentSentenceId st1 p with
      | none => (st1, OpOutcome.crash)
      | some pid =>
        match getSent st1 pid with
        | none => (st1, OpOutcome.crash)
        | some s => (emitReq st1 (Event.coqQueryReq query (some s.stateId)), OpOutcome.ok)

/-- `onCoqClosed(error?)`: silent on a falsy error (null or empty, per the
JS condition `!error`) or when no longer running; otherwise log, dispose,
and then invoke `coqDied` — which happens after `dispose()` has cleared
`this.callbacks`, so the callback invocation raises a TypeError. -/
def onCoqClosed (st : STMState) (error : Option String) : STMState :=
  let truthy := match error with | some e => e != "" | none => false
  if !truthy || !st.running then st
  else
    let st1 := { st with events := st.events ++
        [Event.consoleLog ("onCoqClosed(" ++ error.getD "" ++ ")")] }
    let st2 := dispose st1
    fire st2 (Event.coqDied (error.getD ""))

/-! Concrete states used by the witnesses and counterexamples. -/

/-- Shorthand for a range from (l1,c1) to (l2,c2). -/
def mkRange (l1 c1 l2 c2 : Nat) : Range :=
  ⟨⟨l1, c1⟩, ⟨l2, c2⟩⟩

/-- Root sentence with state id 1 (the usual initial id of the backend). -/
def rootSent1 : Sent := ⟨1, "", mkRange 0 0 0 0, SentenceStatus.ProcessingInput⟩

/-- Sentence 2, text "A." over (0:0)-(0:2). -/
def sentA : Sent := ⟨2, "A.", mkRange 0 0 0 2, SentenceStatus.Processed⟩

/-- Sentence 3, text "B." over (0:2)-(0:4). -/
def sentB : Sent := ⟨3, "B.", mkRange 0 2 0 4, SentenceStatus.Processed⟩

/-- Sentence 4, text "Qed." over (0:4)-(0:9). -/
def sentC : Sent := ⟨4, "Qed.", mkRange 0 4 0 9, SentenceStatus.Processed⟩

/-- A linear running state: root 1 → 2 → 3 → 4, focus and last at 4. -/
def st0 : STMState :=
  { version := 1, root := some 1,
    sentences := [rootSent1, sentA, sentB, sentC],
    tree := [1, 2, 3, 4],
    focusedSentence := some 4, lastSentence := some 4,
    bufferedFeedback := [], running := true, callbacksLive := true,
    coqtopRunning := true, events := [] }

/-- Root sentence with state id 0. -/
def rootSent0 : Sent := ⟨0, "", mkRange 0 0 0 0, SentenceStatus.ProcessingInput⟩

/-- A freshly initialized running state whose root has state id 0. -/
def stZ : STMState :=
  { version := 1, root := some 0,
    sentences := [rootSent0],
    tree := [0],
    focusedSentence := some 0, lastSentence := some 0,
    bufferedFeedback := [], running := true, callbacksLive := true,
    coqtopRunning := true, events := [] }

/-- Root 0 with one accepted sentence 2, focus and last at 2. -/
def stZ3 : STMState :=
  { version := 1, root := some 0,
    sentences := [rootSent0, sentA],
    tree := [0, 2],
    focusedSentence := some 2, lastSentence := some 2,
    bufferedFeedback := [], running := true, callbacksLive := true,
    coqtopRunning := true, events := [] }

/-- Sentence 4 directly after 2, text "Qed." over (0:2)-(0:7). -/
def sentQ : Sent := ⟨4, "Qed.", mkRange 0 2 0 7, SentenceStatus.Processed⟩

/-- A state after a jump inside a proof: tree root 1 → 2 → 4, the focus on
sentence 2 while the qed sentence 4 is still the last sentence. -/
def stJ : STMState :=
  { version := 1, root := some 1,
    sentences := [rootSent1, sentA, sentQ],
    tree := [1, 2, 4],
    focusedSentence := some 2, lastSentence := some 4,
    bufferedFeedback := [], running := true, callbacksLive := true,
    coqtopRunning := true, events := [] }

/-- A disposed state (`running = false`), previously initialized. -/
def stDead : STMState :=
  { version := 1, root := some 1,
    sentences := [], tree := [1, 2],
    focusedSentence := none, lastSentence := some 2,
    bufferedFeedback := [], running := false, callbacksLive := false,
    coqtopRunning := false, events := [] }

/-- An uninitialized running state (no root, no focus). -/
def stU : STMState :=
  { version := 0, root := none,
    sentences := [], tree := [],
    focusedSentence := none, lastSentence := none,
    bufferedFeedback := [], running := true, callbacksLive := true,
    coqtopRunning := false, events := [] }

/-! Basic lemmas about the position order. -/

theorem positionIsAfterOrEqual_eq_not_before (a b : Pos) :
    positionIsAfterOrEqual a b = !positionIsBefore a b := by
  rcases a with ⟨al, ac⟩
  rcases b with ⟨bl, bc⟩
  simp only [positionIsAfterOrEqual, positionIsAfter, positionIsBefore, positionIsEqual]
  rw [Bool.eq_iff_iff]
  simp only [Bool.or_eq_true, Bool.and_eq_true, decide_eq_true_eq, beq_iff_eq,
    Bool.not_eq_true', Bool.or_eq_false_iff, Bool.and_eq_false_iff,
    decide_eq_false_iff_not, beq_eq_false_iff_ne, ne_eq]
  constructor
  · rintro (h | h) <;> omega
  · intro h
    omega

theorem positionIsBefore_trans_le {a b e : Pos}
    (hab : positionIsBefore a b = false) (hae : positionIsBefore a e = true) :
    positionIsBefore b e = true := by
  rcases a with ⟨al, ac⟩
  rcases b with ⟨bl, bc⟩
  rcases e with ⟨el, ec⟩
  simp only [positionIsBefore, Bool.or_eq_true, Bool.and_eq_true, decide_eq_true_eq,
    beq_iff_eq, Bool.or_eq_false_iff, Bool.and_eq_false_iff, decide_eq_false_iff_not,
    beq_eq_false_iff_ne, ne_eq] at *
  omega

theorem positionIsBefore_of_after {a b : Pos} (h : positionIsAfter a b = true) :
    positionIsBefore b a = true := h

theorem positionIsBefore_false_of_after_false {a b : Pos}
    (h : positionIsAfter a b = false) : positionIsBefore b a = false := h

theorem positionIsBefore_asymm {a b : Pos} (h : positionIsAfter a b = true) :
    positionIsBefore a b = false := by
  rcases a with ⟨al, ac⟩
  rcases b with ⟨bl, bc⟩
  simp only [positionIsAfter, positionIsBefore, Bool.or_eq_true, Bool.and_eq_true,
    decide_eq_true_eq, beq_iff_eq, Bool.or_eq_false_iff, Bool.and_eq_false_iff,
    decide_eq_false_iff_not, beq_eq_false_iff_ne, ne_eq] at *
  omega

/-! Lemmas about the state-id index. -/

theorem getSentList_none_iff (m : List Sent) (id : Nat) :
    getSentList m id = none ↔ ∀ s ∈ m, s.stateId ≠ id := by
  simp [getSentList, List.find?_eq_none]

theorem getSentList_some_stateId {m : List Sent} {id : Nat} {s : Sent}
    (h : getSentList m id = some s) : s.stateId = id := by
  have := List.find?_some h
  simpa using this

theorem find?_filter_true {α : Type} (p q : α → Bool) (l : List α)
    (h : ∀ x, p x = true → q x = true) :
    List.find? p (l.filter q) = List.find? p l := by
  induction l with
  | nil => rfl
  | cons x xs ih =>
    cases hq : q x with
    | true =>
      rw [List.filter_cons_of_pos hq, List.find?_cons, List.find?_cons]
      cases hp : p x with
      | true => rfl
      | false => exact ih
    | false =>
      have hp : p x = false := by
        cases hp : p x with
        | false => rfl
        | true => rw [h x hp] at hq; exact absurd hq (by decide)
      rw [List.filter_cons_of_neg (by simp [hq]), List.find?_cons, hp]
      exact ih

theorem find?_replace_self (m : List Sent) (s : Sent)
    (hany : m.any (fun x => x.stateId == s.stateId) = true) :
    List.find? (fun x => x.stateId == s.stateId)
      (m.map (fun x => if x.stateId == s.stateId then s else x)) = some s := by
  induction m with
  | nil => simp at hany
  | cons x xs ih =>
    cases hx : (x.stateId == s.stateId) with
    | true =>
      rw [List.map_cons, if_pos hx, List.find?_cons]
      have hs : (s.stateId == s.stateId) = true := by simp
      rw [hs]
    | false =>
      have hxs : xs.any (fun x => x.stateId == s.stateId) = true := by
        rw [List.any_cons, hx] at hany
        simpa using hany
      rw [List.map_cons, if_neg (by simp [hx]), List.find?_cons, hx]
      exact ih hxs

theorem find?_replace_ne (m : List Sent) (s : Sent) (id : Nat) (h : id ≠ s.stateId) :
    List.find? (fun x => x.stateId == id)
      (m.map (fun x => if x.stateId == s.stateId then s else x)) =
    List.find? (fun x => x.stateId == id) m := by
  induction m with
  | nil => rfl
  | cons x xs ih =>
    cases hx : (x.stateId == s.stateId) with
    | true =>
      have hxeq : x.stateId = s.stateId := by simpa using hx
      have hxid : (x.stateId == id) = false := by
        rw [hxeq]
        exact beq_eq_false_iff_ne.mpr (fun he => h he.symm)
      have hsid : (s.stateId == id) = false :=
        beq_eq_false_iff_ne.mpr (fun he => h he.symm)
      rw [List.map_cons, if_pos hx, List.find?_cons, List.find?_cons, hsid, hxid]
      exact ih
    | false =>
      rw [List.map_cons, if_neg (by simp [hx]), List.find?_cons, List.find?_cons]
      cases hxid : (x.stateId == id) with
      | true => rfl
      | false => exact ih

theorem getSentList_mapSet_self (m : List Sent) (s : Sent) :
    getSentList (mapSet m s) s.stateId = some s := by
  unfold mapSet
  cases hany : m.any (fun x => x.stateId == s.stateId) with
  | true =>
    rw [if_pos rfl]
    exact find?_replace_self m s hany
  | false =>
    rw [if_neg (by decide)]
    unfold getSentList
    rw [List.find?_append]
    have hnone : List.find? (fun x => x.stateId == s.stateId) m = none := by
      rw [List.find?_eq_none]
      intro x hx
      rw [List.any_eq_false] at hany
      exact hany x hx
    rw [hnone]
    simp

theorem getSentList_mapSet_ne (m : List Sent) (s : Sent) (id : Nat) (h : id ≠ s.stateId) :
    getSentList (mapSet m s) id = getSentList m id := by
  unfold mapSet
  cases hany : m.any (fun x => x.stateId == s.stateId) with
  | true =>
    rw [if_pos rfl]
    exact find?_replace_ne m s id h
  | false =>
    rw [if_neg (by decide)]
    unfold getSentList
    rw [List.find?_append]
    have hone : List.find? (fun x => x.stateId == id) [s] = none := by
      have : (s.stateId == id) = false := beq_eq_false_iff_ne.mpr (fun he => h he.symm)
      simp [List.find?_cons, this]
    rw [hone]
    cases List.find? (fun x => x.stateId == id) m <;> rfl

theorem getSentList_mapUpdate_self (m : List Sent) (id : Nat) (f : Sent → Sent)
    (hf : ∀ s, (f s).stateId = s.stateId) :
    getSentList (mapUpdate m id f) id = (getSentList m id).map f := by
  induction m with
  | nil => rfl
  | cons x xs ih =>
    unfold mapUpdate getSentList at ih ⊢
    cases hx : (x.stateId == id) with
    | true =>
      have hfx : ((f x).stateId == id) = true := by
        rw [hf x]; exact hx
      rw [List.map_cons, if_pos hx, List.find?_cons, List.find?_cons, hfx, hx]
      rfl
    | false =>
      rw [List.map_cons, if_neg (by simp [hx]), List.find?_cons, List.find?_cons, hx]
      exact ih

theorem getSentList_mapUpdate_ne (m : List Sent) (id id2 : Nat) (f : Sent → Sent)
    (hf : ∀ s, (f s).stateId = s.stateId) (h : id2 ≠ id) :
    getSentList (mapUpdate m id f) id2 = getSentList m id2 := by
  induction m with
  | nil => rfl
  | cons x xs ih =>
    unfold mapUpdate getSentList at ih ⊢
    cases hx : (x.stateId == id) with
    | true =>
      have hxeq : x.stateId = id := by simpa using hx
      have h1 : ((f x).stateId == id2) = false := by
        rw [hf x, hxeq]
        exact beq_eq_false_iff_ne.mpr (fun he => h he.symm)
      have h2 : (x.stateId == id2) = false := by
        rw [hxeq]
        exact beq_eq_false_iff_ne.mpr (fun he => h he.symm)
      rw [List.map_cons, if_pos hx, List.find?_cons, List.find?_cons, h1, h2]
      exact ih
    | false =>
      rw [List.map_cons, if_neg (by simp [hx]), List.find?_cons, List.find?_cons]
      cases hxid : (x.stateId == id2) with
      | true => rfl
      | false => exact ih

theorem getSentList_mapDelete_self (m : List Sent) (id : Nat) :
    getSentList (mapDelete m id) id = none := by
  rw [getSentList_none_iff]
  intro s hs
  rw [mapDelete, List.mem_filter] at hs
  have := hs.2
  simpa using this

theorem getSentList_mapDelete_ne (m : List Sent) (id id2 : Nat) (h : id2 ≠ id) :
    getSentList (mapDelete m id) id2 = getSentList m id2 := by
  unfold mapDelete getSentList
  apply find?_filter_true
  intro x hx
  have hxid : x.stateId = id2 := beq_iff_eq.mp hx
  simp [hxid, h]

/-! Lemmas about the acceptance-order tree. -/

theorem treeUpTo_append_treeAfter (t : List Nat) (id : Nat) (h : id ∈ t) :
    treeUpTo t id ++ treeAfter t id = t := by
  induction t with
  | nil => cases h
  | cons x xs ih =>
    by_cases hx : x = id
    · subst hx
      simp [treeUpTo, treeAfter]
    · have hxs : id ∈ xs := by
        cases h with
        | head => exact absurd rfl hx
        | tail _ hm => exact hm
      simp only [treeUpTo, treeAfter, hx, if_false]
      rw [List.cons_append, ih hxs]

theorem treeAfter_sublist (t : List Nat) (id : Nat) : (treeAfter t id).Sublist t := by
  induction t with
  | nil => exact List.Sublist.refl _
  | cons x xs ih =>
    by_cases hx : x = id
    · simp [treeAfter, hx]
    · simp only [treeAfter, hx, if_false]
      exact ih.cons x

theorem treeBetween_sublist (t : List Nat) (s e : Nat) : (treeBetween t s e).Sublist t := by
  unfold treeBetween
  exact (List.takeWhile_sublist _).trans (treeAfter_sublist t s)

theorem treeAfter_treeUpTo (t : List Nat) (id : Nat) :
    treeAfter (treeUpTo t id) id = [] := by
  induction t with
  | nil => rfl
  | cons x xs ih =>
    by_cases hx : x = id
    · simp [treeUpTo, treeAfter, hx]
    · simp [treeUpTo, treeAfter, hx, ih]

theorem mem_treeAfter_of_mem {t : List Nat} {id x : Nat} (h : x ∈ treeAfter t id) : x ∈ t :=
  (treeAfter_sublist t id).mem h

theorem mem_treeUpTo_iff {t : List Nat} {id x : Nat} (hmem : id ∈ t) (hnd : t.Nodup) :
    x ∈ treeUpTo t id ↔ x ∈ t ∧ x ∉ treeAfter t id := by
  have hsplit := treeUpTo_append_treeAfter t id hmem
  have hnd2 : (treeUpTo t id ++ treeAfter t id).Nodup := by rw [hsplit]; exact hnd
  rw [List.nodup_append] at hnd2
  constructor
  · intro hx
    refine ⟨?_, ?_⟩
    · rw [← hsplit]; exact List.mem_append_left _ hx
    · intro hx2
      exact hnd2.2.2 hx hx2
  · rintro ⟨hx, hx2⟩
    rw [← hsplit] at hx
    rcases List.mem_append.mp hx with h1 | h1
    · exact h1
    · exact absurd h1 hx2

theorem dropWhile_ne_of_mem (t : List Nat) (e : Nat) (h : e ∈ t) :
    t.dropWhile (fun x => x != e) = e :: treeAfter t e := by
  induction t with
  | nil => cases h
  | cons x xs ih =>
    by_cases hx : x = e
    · subst hx
      rw [List.dropWhile_cons]
      simp [treeAfter]
    · have hxs : e ∈ xs := by
        cases h with
        | head => exact absurd rfl hx
        | tail _ hm => exact hm
      rw [List.dropWhile_cons]
      have hb : (x != e) = true := by simpa using hx
      simp only [hb, if_true]
      simp only [treeAfter, hx, if_false]
      exact ih hxs

theorem treeAfter_append_of_not_mem (l1 l2 : List Nat) (e : Nat) (h : e ∉ l1) :
    treeAfter (l1 ++ l2) e = treeAfter l2 e := by
  induction l1 with
  | nil => rfl
  | cons x xs ih =>
    have hx : x ≠ e := fun he => h (he ▸ List.mem_cons_self x xs)
    have hxs : e ∉ xs := fun he => h (List.mem_cons_of_mem x he)
    simp only [List.cons_append, treeAfter, hx, if_false]
    exact ih hxs

theorem head_treeInsertAfter (x : Nat) (xs : List Nat) (p nid : Nat) :
    ∃ rest, treeInsertAfter (x :: xs) p nid = x :: rest := by
  by_cases hx : x = p
  · exact ⟨nid :: xs, by simp [treeInsertAfter, hx]⟩
  · exact ⟨treeInsertAfter xs p nid, by simp [treeInsertAfter, hx]⟩

theorem treeParent_insertAfter (t : List Nat) (p nid : Nat) (hp : p ∈ t) (hn : nid ∉ t) :
    treeParent (treeInsertAfter t p nid) nid = some p := by
  induction t with
  | nil => cases hp
  | cons x xs ih =>
    by_cases hx : x = p
    · subst hx
      simp [treeInsertAfter, treeParent]
    · have hps : p ∈ xs := by
        cases hp with
        | head => exact absurd rfl hx
        | tail _ hm => exact hm
      have hns : nid ∉ xs := fun hm => hn (List.mem_cons_of_mem x hm)
      have hnx : x ≠ nid := fun he => hn (he ▸ List.mem_cons_self x xs)
      simp only [treeInsertAfter, hx, if_false]
      cases xs with
      | nil => cases hps
      | cons y ys =>
        obtain ⟨rest, hrest⟩ := head_treeInsertAfter y ys p nid
        rw [hrest]
        have hy : y ≠ nid := fun he => hn (he ▸ List.mem_cons_of_mem x (List.mem_cons_self y ys))
        simp only [treeParent, hy, if_false]
        rw [← hrest]
        exact ih hps hns

/-! Frame and characterization lemmas for the deletion folds. -/

theorem deleteSentById_frame (st : STMState) (id : Nat) :
    (deleteSentById st id).tree = st.tree ∧
    (deleteSentById st id).focusedSentence = st.focusedSentence ∧
    (deleteSentById st id).lastSentence = st.lastSentence ∧
    (deleteSentById st id).callbacksLive = st.callbacksLive ∧
    (deleteSentById st id).running = st.running ∧
    (deleteSentById st id).version = st.version ∧
    (deleteSentById st id).root = st.root ∧
    (deleteSentById st id).bufferedFeedback = st.bufferedFeedback ∧
    (deleteSentById st id).coqtopRunning = st.coqtopRunning := by
  unfold deleteSentById deleteSentence fire
  cases getSent st id with
  | none => exact ⟨rfl, rfl, rfl, rfl, rfl, rfl, rfl, rfl, rfl⟩
  | some s =>
    by_cases h : st.callbacksLive = true
    · simp [h]
    · simp [h]

theorem deleteFold_frame (ids : List Nat) (st : STMState) :
    (deleteFold st ids).tree = st.tree ∧
    (deleteFold st ids).focusedSentence = st.focusedSentence ∧
    (deleteFold st ids).lastSentence = st.lastSentence ∧
    (deleteFold st ids).callbacksLive = st.callbacksLive ∧
    (deleteFold st ids).running = st.running ∧
    (deleteFold st ids).version = st.version ∧
    (deleteFold st ids).root = st.root ∧
    (deleteFold st ids).bufferedFeedback = st.bufferedFeedback ∧
    (deleteFold st ids).coqtopRunning = st.coqtopRunning := by
  induction ids generalizing st with
  | nil => exact ⟨rfl, rfl, rfl, rfl, rfl, rfl, rfl, rfl, rfl⟩
  | cons i tl ih =>
    have h1 := deleteSentById_frame st i
    have h2 := ih (deleteSentById st i)
    unfold deleteFold at h2 ⊢
    rw [List.foldl_cons]
    refine ⟨?_, ?_, ?_, ?_, ?_, ?_, ?_, ?_, ?_⟩
    · rw [h2.1, h1.1]
    · rw [h2.2.1, h1.2.1]
    · rw [h2.2.2.1, h1.2.2.1]
    · rw [h2.2.2.2.1, h1.2.2.2.1]
    · rw [h2.2.2.2.2.1, h1.2.2.2.2.1]
    · rw [h2.2.2.2.2.2.1, h1.2.2.2.2.2.1]
    · rw [h2.2.2.2.2.2.2.1, h1.2.2.2.2.2.2.1]
    · rw [h2.2.2.2.2.2.2.2.1, h1.2.2.2.2.2.2.2.1]
    · rw [h2.2.2.2.2.2.2.2.2, h1.2.2.2.2.2.2.2.2]

theorem deleteSentById_sentences (st : STMState) (id : Nat) :
    (deleteSentById st id).sentences = st.sentences.filter (fun s => s.stateId != id) := by
  unfold deleteSentById
  cases hg : getSent st id with
  | none =>
    rw [getSent, getSentList_none_iff] at hg
    have : st.sentences.filter (fun s => s.stateId != id) = st.sentences := by
      rw [List.filter_eq_self]
      intro a ha
      simpa using hg a ha
    rw [this]
  | some s =>
    have hsid : s.stateId = id := getSentList_some_stateId hg
    unfold deleteSentence fire mapDelete
    by_cases h : st.callbacksLive = true
    · simp only [h, if_true]
      rw [hsid]
    · simp only [h]
      simp only [Bool.false_eq_true, if_false]
      rw [hsid]

theorem getSent_deleteSentById_ne (st : STMState) (i id : Nat) (h : id ≠ i) :
    getSent (deleteSentById st i) id = getSent st id := by
  unfold getSent
  rw [deleteSentById_sentences]
  unfold getSentList
  apply find?_filter_true
  intro x hx
  have hxid : x.stateId = id := by simpa using hx
  simp [hxid, h]

theorem getSent_deleteFold (ids : List Nat) (st : STMState) (id : Nat) :
    getSent (deleteFold st ids) id = if id ∈ ids then none else getSent st id := by
  induction ids generalizing st with
  | nil => simp [deleteFold]
  | cons i tl ih =>
    unfold deleteFold at ih ⊢
    rw [List.foldl_cons]
    by_cases hid : id ∈ i :: tl
    · rw [if_pos hid]
      by_cases htl : id ∈ tl
      · rw [ih, if_pos htl]
      · have hii : id = i := by
          cases hid with
          | head => rfl
          | tail _ hm => exact absurd hm htl
        rw [ih, if_neg htl]
        subst hii
        unfold getSent
        rw [deleteSentById_sentences]
        unfold getSentList
        rw [List.find?_eq_none]
        intro x hx
        rw [List.mem_filter] at hx
        have := hx.2
        intro hb
        have hxe : x.stateId = id := by simpa using hb
        rw [hxe] at this
        simp at this
    · rw [if_neg hid]
      have h1 : id ∉ tl := fun hm => hid (List.mem_cons_of_mem i hm)
      have h2 : id ≠ i := fun he => hid (he ▸ List.mem_cons_self i tl)
      rw [ih, if_neg h1]
      exact getSent_deleteSentById_ne st i id h2

theorem deleteSentById_events_mono (st : STMState) (id : Nat) :
    ∃ t, (deleteSentById st id).events = st.events ++ t := by
  unfold deleteSentById deleteSentence fire
  cases getSent st id with
  | none => exact ⟨[], by simp⟩
  | some s =>
    by_cases h : st.callbacksLive = true
    · exact ⟨[Event.clearSentence s.range], by simp [h]⟩
    · exact ⟨[Event.typeErrorCrash], by simp [h]⟩

theorem deleteFold_events_mono (ids : List Nat) (st : STMState) :
    ∃ t, (deleteFold st ids).events = st.events ++ t := by
  induction ids generalizing st with
  | nil => exact ⟨[], by simp [deleteFold]⟩
  | cons i tl ih =>
    unfold deleteFold at ih ⊢
    rw [List.foldl_cons]
    obtain ⟨t1, h1⟩ := deleteSentById_events_mono st i
    obtain ⟨t2, h2⟩ := ih (deleteSentById st i)
    exact ⟨t1 ++ t2, by rw [h2, h1, List.append_assoc]⟩

theorem deleteFold_clear (ids : List Nat) (st : STMState)
    (hcb : st.callbacksLive = true) (hnd : ids.Nodup) :
    ∀ id ∈ ids, ∀ s, getSent st id = some s →
      Event.clearSentence s.range ∈ (deleteFold st ids).events := by
  induction ids generalizing st with
  | nil => intro id h; cases h
  | cons i tl ih =>
    intro id hid s hs
    unfold deleteFold
    rw [List.foldl_cons]
    rcases List.nodup_cons.mp hnd with ⟨hni, hndtl⟩
    by_cases hii : id = i
    · subst hii
      have hstep : (deleteSentById st id).events = st.events ++ [Event.clearSentence s.range] := by
        unfold deleteSentById
        rw [hs]
        unfold deleteSentence fire
        simp [hcb]
      obtain ⟨t, ht⟩ := deleteFold_events_mono tl (deleteSentById st id)
      unfold deleteFold at ht
      rw [ht, hstep]
      simp
    · have htl : id ∈ tl := by
        cases hid with
        | head => exact absurd rfl hii
        | tail _ hm => exact hm
      have hcb2 : (deleteSentById st i).callbacksLive = true := by
        rw [(deleteSentById_frame st i).2.2.2.1]
        exact hcb
      have hs2 : getSent (deleteSentById st i) id = some s := by
        rw [getSent_deleteSentById_ne st i id hii]
        exact hs
      exact ih (deleteSentById st i) hcb2 hndtl id htl s hs2

/-! Characterization of the rewind operations. -/

theorem rewindTo_fields (st : STMState) (id : Nat) :
    (rewindTo st id).tree = treeUpTo st.tree id ∧
    (rewindTo st id).focusedSentence = some id ∧
    (rewindTo st id).lastSentence = some id ∧
    (rewindTo st id).sentences = (deleteFold st (treeAfter st.tree id)).sentences ∧
    (rewindTo st id).events = (deleteFold st (treeAfter st.tree id)).events ∧
    (rewindTo st id).running = st.running ∧
    (rewindTo st id).callbacksLive = st.callbacksLive ∧
    (rewindTo st id).version = st.version := by
  unfold rewindTo
  dsimp only
  have h := deleteFold_frame (treeAfter st.tree id) st
  refine ⟨?_, rfl, rfl, rfl, rfl, ?_, ?_, ?_⟩
  · rw [h.1]
  · rw [h.2.2.2.2.1]
  · rw [h.2.2.2.1]
  · rw [h.2.2.2.2.2.1]

theorem rewindRange_fields (st : STMState) (s e : Nat) :
    (rewindRange st s e).tree = treeRemoveBetween st.tree s e ∧
    (rewindRange st s e).focusedSentence = st.focusedSentence ∧
    (rewindRange st s e).lastSentence = st.lastSentence ∧
    (rewindRange st s e).sentences = (deleteFold st (treeBetween st.tree s e)).sentences ∧
    (rewindRange st s e).events = (deleteFold st (treeBetween st.tree s e)).events ∧
    (rewindRange st s e).running = st.running ∧
    (rewindRange st s e).callbacksLive = st.callbacksLive := by
  unfold rewindRange
  dsimp only
  have h := deleteFold_frame (treeBetween st.tree s e) st
  refine ⟨?_, ?_, ?_, rfl, rfl, ?_, ?_⟩
  · rw [h.1]
  · rw [h.2.1]
  · rw [h.2.2.1]
  · rw [h.2.2.2.2.1]
  · rw [h.2.2.2.1]

/-! Event-trace monotonicity: the operations only append to the trace. -/

theorem fire_events_mono (st : STMState) (e : Event) :
    ∃ t, (fire st e).events = st.events ++ t := by
  unfold fire
  by_cases h : st.callbacksLive = true
  · exact ⟨[e], by simp [h]⟩
  · exact ⟨[Event.typeErrorCrash], by simp [h]⟩

theorem dispose_events_mono (st : STMState) :
    ∃ t, (dispose st).events = st.events ++ t := by
  unfold dispose
  by_cases h : st.running = true
  · exact ⟨[Event.consoleWarn "The STM manager is being disposed before being shut down"],
      by simp [h]⟩
  · exact ⟨[], by simp [h]⟩

theorem handleInconsistentState_events_mono (st : STMState) (m : String) :
    ∃ t, (handleInconsistentState st m).events = st.events ++ t := by
  unfold handleInconsistentState
  obtain ⟨t1, h1⟩ := fire_events_mono st (Event.coqDied ("Inconsistent state: " ++ m))
  obtain ⟨t2, h2⟩ := dispose_events_mono (fire st (Event.coqDied ("Inconsistent state: " ++ m)))
  exact ⟨t1 ++ t2, by rw [h2, h1, List.append_assoc]⟩

theorem rewindTo_events_mono (st : STMState) (id : Nat) :
    ∃ t, (rewindTo st id).events = st.events ++ t := by
  rw [(rewindTo_fields st id).2.2.2.2.1]
  exact deleteFold_events_mono _ st

theorem rewindRange_events_mono (st : STMState) (s e : Nat) :
    ∃ t, (rewindRange st s e).events = st.events ++ t := by
  rw [(rewindRange_fields st s e).2.2.2.2.1]
  exact deleteFold_events_mono _ st

theorem gotoErrorFallbackState_events_mono (st : STMState) (id : Nat) (resp : EditAtResponse) :
    ∃ t, (gotoErrorFallbackState st id resp).events =
      st.events ++ Event.coqEditAt id :: t := by
  unfold gotoErrorFallbackState emitReq
  cases resp with
  | value q =>
    cases hb : getSent st id with
    | some s =>
      obtain ⟨t, ht⟩ := rewindTo_events_mono
        { st with events := st.events ++ [Event.coqEditAt id] } s.stateId
      exact ⟨t, by rw [ht]; simp⟩
    | none =>
      obtain ⟨t, ht⟩ := handleInconsistentState_events_mono
        { st with events := st.events ++ [Event.coqEditAt id] }
        "TypeError: cannot read a property of undefined"
      exact ⟨t, by rw [ht]; simp⟩
  | failure fid m r1 r2 =>
    obtain ⟨t, ht⟩ := handleInconsistentState_events_mono
      { st with events := st.events ++ [Event.coqEditAt id] } m
    exact ⟨t, by rw [ht]; simp⟩

theorem focusSentence_events_mono_of_ne (st : STMState) (target : Nat)
    (resp : EditAtResponse) (fb : Nat → EditAtResponse)
    (h : st.focusedSentence ≠ some target) :
    ∃ t, (focusSentence st target resp fb).events =
      st.events ++ Event.coqEditAt target :: t := by
  unfold focusSentence
  have hne : (st.focusedSentence == some target) = false := by
    cases hx : st.focusedSentence == some target with
    | false => rfl
    | true => exact absurd (by simpa using hx) h
  rw [hne]
  simp only [Bool.false_eq_true, if_false]
  unfold emitReq
  cases resp with
  | value newFocus =>
    cases newFocus with
    | some qed =>
      obtain ⟨t, ht⟩ := rewindRange_events_mono
        { st with events := st.events ++ [Event.coqEditAt target] } target qed
      exact ⟨t, by simp only [ht]; simp⟩
    | none =>
      obtain ⟨t, ht⟩ := rewindTo_events_mono
        { st with events := st.events ++ [Event.coqEditAt target] } target
      exact ⟨t, by simp only [ht]; simp⟩
  | failure fid m r1 r2 =>
    dsimp only
    cases fid with
    | some f =>
      dsimp only
      by_cases hf : (f != 0) = true
      · rw [if_pos hf]
        obtain ⟨t, ht⟩ := gotoErrorFallbackState_events_mono
          { st with events := st.events ++ [Event.coqEditAt target] } f (fb f)
        exact ⟨Event.coqEditAt f :: t, by rw [ht]; simp⟩
      · rw [if_neg hf]
        exact ⟨[], by simp⟩
    | none => exact ⟨[], by simp⟩

set_option maxRecDepth 4000 in
/-- Claim C1: if the range start of the command handed to `addCommand` is not
exactly the range end of the focused sentence, the STM fires `coqDied` with a
message beginning "Inconsistent state: ", disposes itself (running becomes
false) and raises `InconsistentState`, without submitting the command to the
backend. -/
theorem C1_addCommand_off_focus (st : STMState) (cmd : Command) (vb : Bool)
    (resp : AddResponse) (editAt : Nat → EditAtResponse) (f : Nat) (fs : Sent)
    (hrun : st.running = true) (hcb : st.callbacksLive = true)
    (hf : st.focusedSentence = some f) (hfs : getSent st f = some fs)
    (hne : positionIsEqual fs.range.stop cmd.range.start = false) :
    (addCommand st cmd vb resp editAt).2 =
      AddOutcome.inconsistent "Can only add a comand to the current focus" ∧
    (addCommand st cmd vb resp editAt).1.running = false ∧
    (addCommand st cmd vb resp editAt).1.events = st.events ++
      [Event.coqDied "Inconsistent state: Can only add a comand to the current focus",
       Event.consoleWarn "The STM manager is being disposed before being shut down"] ∧
    "Inconsistent state: Can only add a comand to the current focus" =
      "Inconsistent state: " ++ "Can only add a comand to the current focus" ∧
    (∀ t v p b, Event.coqAddCommand t v p b ∈ (addCommand st cmd vb resp editAt).1.events →
       Event.coqAddCommand t v p b ∈ st.events) := by
  have hbind : st.focusedSentence.bind (getSent st) = some fs := by
    rw [hf]
    exact hfs
  have hred : addCommand st cmd vb resp editAt =
      (dispose (fire st (Event.coqDied
         ("Inconsistent state: " ++ "Can only add a comand to the current focus"))),
       AddOutcome.inconsistent "Can only add a comand to the current focus") := by
    simp [addCommand, hbind, hne]
  have hev : (addCommand st cmd vb resp editAt).1.events = st.events ++
      [Event.coqDied "Inconsistent state: Can only add a comand to the current focus",
       Event.consoleWarn "The STM manager is being disposed before being shut down"] := by
    rw [hred]
    simp [dispose, fire, hcb, hrun]
  refine ⟨by rw [hred], ?_, hev, rfl, ?_⟩
  · rw [hred]
    simp [dispose, fire, hcb, hrun]
  · intro t v p b hmem
    rw [hev] at hmem
    simp only [List.mem_append] at hmem
    rcases hmem with h1 | h1
    · exact h1
    · simp at h1

/-- Witness for claim C1 at a concrete state: a command starting at (5,0)
added while the focus ends at (0,9). -/
theorem C1_addCommand_off_focus_witness :
    (addCommand st0 ⟨"X.", mkRange 5 0 5 2⟩ true (AddResponse.value 5 none)
        (fun _ => EditAtResponse.value none)).2 =
      AddOutcome.inconsistent "Can only add a comand to the current focus" ∧
    (addCommand st0 ⟨"X.", mkRange 5 0 5 2⟩ true (AddResponse.value 5 none)
        (fun _ => EditAtResponse.value none)).1.running = false := by
  have h := C1_addCommand_off_focus st0 ⟨"X.", mkRange 5 0 5 2⟩ true
    (AddResponse.value 5 none) (fun _ => EditAtResponse.value none) 4 sentC
    rfl rfl rfl rfl (by decide)
  exact ⟨h.1, h.2.1⟩

/-- Claim C10: before lazy initialization there is no focused sentence and
`getFocusedPosition` returns (0,0); on any state with a focused sentence it
returns the range end of that sentence. -/
theorem C10_getFocusedPosition (st : STMState) :
    (st.focusedSentence = none → getFocusedPosition st = ⟨0, 0⟩) ∧
    (∀ f s, st.focusedSentence = some f → getSent st f = some s →
      getFocusedPosition st = s.range.stop) := by
  constructor
  · intro h
    unfold getFocusedPosition
    rw [h]
    rfl
  · intro f s hf hs
    unfold getFocusedPosition
    rw [hf]
    have : (some f).bind (getSent st) = some s := hs
    rw [this]

/-- Witness for claim C10: the uninitialized state yields (0,0) and the
linear state focused on sentence 4 yields its range end (0,9). -/
theorem C10_getFocusedPosition_witness :
    getFocusedPosition stU = ⟨0, 0⟩ ∧ getFocusedPosition st0 = (mkRange 0 4 0 9).stop := by
  exact ⟨(C10_getFocusedPosition stU).1 rfl, (C10_getFocusedPosition st0).2 4 sentC rfl rfl⟩

/-- Claim C7 (code bug): on a truthy error while running, `onCoqClosed`
disposes the STM but the `coqDied` callback is never invoked: `dispose()`
clears the callback record first, so the invocation raises a TypeError; a
null or empty error, or a closure after shutdown, is silent. -/
theorem C7_onCoqClosed_behaviour (st : STMState) :
    (∀ e, st.running = true → e ≠ "" →
      (onCoqClosed st (some e)).running = false ∧
      (onCoqClosed st (some e)).events = st.events ++
        [Event.consoleLog ("onCoqClosed(" ++ e ++ ")"),
         Event.consoleWarn "The STM manager is being disposed before being shut down",
         Event.typeErrorCrash] ∧
      (∀ m, Event.coqDied m ∈ (onCoqClosed st (some e)).events →
         Event.coqDied m ∈ st.events)) ∧
    onCoqClosed st none = st ∧
    onCoqClosed st (some "") = st ∧
    (st.running = false → ∀ e, onCoqClosed st e = st) := by
  refine ⟨?_, ?_, ?_, ?_⟩
  · intro e hrun he
    have htr : (e != "") = true := by
      cases hx : (e == "") with
      | false => simp [bne, hx]
      | true => exact absurd (by simpa using hx) he
    have hred : onCoqClosed st (some e) =
        fire (dispose { st with events := st.events ++
          [Event.consoleLog ("onCoqClosed(" ++ e ++ ")")] }) (Event.coqDied e) := by
      simp [onCoqClosed, htr, hrun]
    have hev : (onCoqClosed st (some e)).events = st.events ++
        [Event.consoleLog ("onCoqClosed(" ++ e ++ ")"),
         Event.consoleWarn "The STM manager is being disposed before being shut down",
         Event.typeErrorCrash] := by
      rw [hred]
      simp [dispose, fire, hrun]
    refine ⟨?_, hev, ?_⟩
    · rw [hred]
      simp [dispose, fire, hrun]
    · intro m hm
      rw [hev] at hm
      simp only [List.mem_append] at hm
      rcases hm with h1 | h1
      · exact h1
      · simp at h1
  · rfl
  · rfl
  · intro hrun e
    unfold onCoqClosed
    rw [hrun]
    simp

/-- Witness for claim C7 at a concrete state: a closure with error
"connection lost" on the running linear state. -/
theorem C7_onCoqClosed_behaviour_witness :
    (onCoqClosed st0 (some "connection lost")).running = false ∧
    (onCoqClosed st0 (some "connection lost")).events = st0.events ++
      [Event.consoleLog "onCoqClosed(connection lost)",
       Event.consoleWarn "The STM manager is being disposed before being shut down",
       Event.typeErrorCrash] := by
  have h := (C7_onCoqClosed_behaviour st0).1 "connection lost" rfl (by decide)
  exact ⟨h.1, h.2.1⟩

/-- Claim C9: once disposed (running = false) every gated public operation
raises instead of performing work, `initialize` raises as well, and no
operation brings the state back to running (each returns the state
unchanged). -/
theorem C9_disposed_refuses (st : STMState) (hrun : st.running = false) :
    (∀ r, validateState st true r =
        (st, ValidateOutcome.err "Cannot perform operation: coq STM manager has been shut down.")) ∧
    (∀ cs vb r ar ea fuel, stepForward st cs vb r ar ea fuel =
        (st, OpOutcome.error "Cannot perform operation: coq STM manager has been shut down.")) ∧
    (∀ r ea fb, stepBackward st r ea fb =
        (st, OpOutcome.error "Cannot perform operation: coq STM manager has been shut down.")) ∧
    (∀ p cs r ar ea fb fuel, interpretToPoint st p cs r ar ea fb fuel =
        (st, OpOutcome.error "Cannot perform operation: coq STM manager has been shut down.")) ∧
    (∀ q p r, doQuery st q p r =
        (st, OpOutcome.error "Cannot perform operation: coq STM manager has been shut down.")) ∧
    (∀ rid, ∃ m, initializeSTM st rid = (st, some m)) ∧
    (∀ c v atc ea fb, applyChanges st c v atc ea fb = st) ∧
    (∀ e, onCoqClosed st e = st) := by
  have hval : ∀ r, validateState st true r =
      (st, ValidateOutcome.err "Cannot perform operation: coq STM manager has been shut down.") := by
    intro r
    simp [validateState, hrun]
  refine ⟨hval, ?_, ?_, ?_, ?_, ?_, ?_, ?_⟩
  · intro cs vb r ar ea fuel
    unfold stepForward
    rw [hval r]
  · intro r ea fb
    unfold stepBackward
    rw [hval r]
  · intro p cs r ar ea fb fuel
    unfold interpretToPoint
    rw [hval r]
  · intro q p r
    unfold doQuery
    rw [hval r]
  · intro rid
    cases hroot : st.root with
    | some x =>
      exact ⟨"STM is already initialized.", by simp [initializeSTM, hroot]⟩
    | none =>
      exact ⟨"Cannot reinitialize the STM once it has died; create a new one.",
        by simp [initializeSTM, hroot, hrun]⟩
  · intro c v atc ea fb
    unfold applyChanges
    rw [hrun]
    simp
  · intro e
    unfold onCoqClosed
    rw [hrun]
    simp

/-- Witness for claim C9 at the concrete disposed state. -/
theorem C9_disposed_refuses_witness :
    stepForward stDead (fun _ _ => []) false 1 (fun _ => AddResponse.value 1 none)
        (fun _ => EditAtResponse.value none) 5 =
      (stDead, OpOutcome.error "Cannot perform operation: coq STM manager has been shut down.") ∧
    (∃ m, initializeSTM stDead 1 = (stDead, some m)) := by
  have h := C9_disposed_refuses stDead rfl
  exact ⟨h.2.1 (fun _ _ => []) false 1 (fun _ => AddResponse.value 1 none)
    (fun _ => EditAtResponse.value none) 5, h.2.2.2.2.2.1 1⟩

/-- Counterexample to claim C2 as stated: a successful add whose response
carries `unfocused_state_id = 0`; the field is present and indexed (the root
has state id 0), yet the focus becomes the new sentence 2, not sentence 0,
because the sources test the field with JS truthiness and 0 is falsy. -/
theorem C2_counterexample :
    (getSent stZ 0).isSome = true ∧
    (addCommand stZ ⟨"A.", mkRange 0 0 0 2⟩ false (AddResponse.value 2 (some 0))
        (fun _ => EditAtResponse.value none)).1.focusedSentence = some 2 ∧
    (addCommand stZ ⟨"A.", mkRange 0 0 0 2⟩ false (AddResponse.value 2 (some 0))
        (fun _ => EditAtResponse.value none)).1.focusedSentence ≠ some 0 ∧
    (addCommand stZ ⟨"A.", mkRange 0 0 0 2⟩ false (AddResponse.value 2 (some 0))
        (fun _ => EditAtResponse.value none)).2 = AddOutcome.ok 2 true := by
  decide

/-- Counterexample to claim C3 as stated: a failing add whose response
supplies the fallback `state_id = 0` (the root); the sources test the field
with JS truthiness, so no edit-at request is issued and the tree is not
rewound, while the `FailValue` is still raised. -/
theorem C3_counterexample :
    (addCommand stZ3 ⟨"B.", mkRange 0 2 0 4⟩ false
        (AddResponse.failure (some 0) "syntax" 0 3)
        (fun _ => EditAtResponse.value none)).1.events =
      [Event.coqAddCommand "B." 1 2 false] ∧
    (addCommand stZ3 ⟨"B.", mkRange 0 2 0 4⟩ false
        (AddResponse.failure (some 0) "syntax" 0 3)
        (fun _ => EditAtResponse.value none)).1.tree = stZ3.tree ∧
    (addCommand stZ3 ⟨"B.", mkRange 0 2 0 4⟩ false
        (AddResponse.failure (some 0) "syntax" 0 3)
        (fun _ => EditAtResponse.value none)).2 =
      AddOutcome.failValue "syntax" ⟨⟨0, 2⟩, ⟨0, 4⟩⟩ := by
  decide

/-- Counterexample to claim C8 as stated: in the state after a proof jump
(focus on sentence 2, qed sentence 4 after it), an edit inside the interior
of sentence 4 is reported invalidated by `applyTextChanges`, yet no backend
edit-at is issued and sentence 4 survives: the cancel focuses the parent of
4, which is already the focused sentence, so `focusSentence` is a no-op. -/
theorem C8_counterexample :
    (applyTextChangesModel sentQ [⟨mkRange 0 3 0 4, "x"⟩]).2 = true ∧
    (applyChanges stJ [⟨mkRange 0 3 0 4, "x"⟩] 2 applyTextChangesModel
        (fun _ => EditAtResponse.value none) (fun _ => EditAtResponse.value none)).events = [] ∧
    (applyChanges stJ [⟨mkRange 0 3 0 4, "x"⟩] 2 applyTextChangesModel
        (fun _ => EditAtResponse.value none) (fun _ => EditAtResponse.value none)).tree =
      [1, 2, 4] := by
  decide

theorem deleteFold_sentences (ids : List Nat) (st : STMState) :
    (deleteFold st ids).sentences =
      st.sentences.filter (fun x => !(ids.contains x.stateId)) := by
  induction ids generalizing st with
  | nil => simp [deleteFold]
  | cons i tl ih =>
    unfold deleteFold at ih ⊢
    rw [List.foldl_cons, ih, deleteSentById_sentences, List.filter_filter]
    apply List.filter_congr
    intro x hx
    cases hc : (x.stateId == i) with
    | true =>
      have : x.stateId = i := by simpa using hc
      simp [List.contains_cons, this, bne]
    | false =>
      have hne : x.stateId ≠ i := by simpa using hc
      simp [List.contains_cons, hc, bne, hne]

/-- Claim C6: after `rewindTo(s)` on a live sentence `s`, the focused and
last sentences are both `s`, `s` has no descendants, every removed sentence
was deleted from the state-id index with `clearSentence` fired for its
range, and the index and the tree keep identical membership. -/
theorem C6_rewindTo_invariant (st : STMState) (s : Nat)
    (hs : s ∈ st.tree) (hnd : st.tree.Nodup) (hcb : st.callbacksLive = true)
    (hmemT : ∀ id ∈ st.tree, (getSent st id).isSome = true)
    (hmemS : ∀ x ∈ st.sentences, x.stateId ∈ st.tree) :
    (rewindTo st s).focusedSentence = some s ∧
    (rewindTo st s).lastSentence = some s ∧
    treeAfter (rewindTo st s).tree s = [] ∧
    (∀ id ∈ (rewindTo st s).tree, (getSent (rewindTo st s) id).isSome = true) ∧
    (∀ x ∈ (rewindTo st s).sentences, x.stateId ∈ (rewindTo st s).tree) ∧
    (∀ id ∈ treeAfter st.tree s, getSent (rewindTo st s) id = none ∧
      ∃ sent, getSent st id = some sent ∧
        Event.clearSentence sent.range ∈ (rewindTo st s).events) := by
  have hfields := rewindTo_fields st s
  have hGS : ∀ id, getSent (rewindTo st s) id =
      getSent (deleteFold st (treeAfter st.tree s)) id := by
    intro id
    unfold getSent
    rw [hfields.2.2.2.1]
  have hndA : (treeAfter st.tree s).Nodup := (treeAfter_sublist st.tree s).nodup hnd
  refine ⟨hfields.2.1, hfields.2.2.1, ?_, ?_, ?_, ?_⟩
  · rw [hfields.1]
    exact treeAfter_treeUpTo st.tree s
  · intro id hid
    rw [hfields.1] at hid
    rw [hGS, getSent_deleteFold]
    have hid2 := (mem_treeUpTo_iff hs hnd).mp hid
    rw [if_neg hid2.2]
    exact hmemT id hid2.1
  · intro x hx
    rw [hfields.2.2.2.1, deleteFold_sentences] at hx
    rw [List.mem_filter] at hx
    have hxt : x.stateId ∈ st.tree := hmemS x hx.1
    have hxna : x.stateId ∉ treeAfter st.tree s := by
      intro hc
      have : (treeAfter st.tree s).contains x.stateId = true := by
        rw [List.contains_eq_any_beq]
        rw [List.any_eq_true]
        exact ⟨x.stateId, hc, by simp⟩
      rw [this] at hx
      simp at hx
    rw [hfields.1]
    exact (mem_treeUpTo_iff hs hnd).mpr ⟨hxt, hxna⟩
  · intro id hid
    constructor
    · rw [hGS, getSent_deleteFold, if_pos hid]
    · have hmem : id ∈ st.tree := mem_treeAfter_of_mem hid
      have hsome := hmemT id hmem
      rw [Option.isSome_iff_exists] at hsome
      obtain ⟨sent, hsent⟩ := hsome
      refine ⟨sent, hsent, ?_⟩
      rw [hfields.2.2.2.2.1]
      exact deleteFold_clear (treeAfter st.tree s) st hcb hndA id hid sent hsent

/-- Witness for claim C6: rewinding the linear state to sentence 2 leaves
focus and last at 2, tree [1,2], and clears sentences 3 and 4. -/
theorem C6_rewindTo_invariant_witness :
    (rewindTo st0 2).focusedSentence = some 2 ∧
    (rewindTo st0 2).lastSentence = some 2 ∧
    treeAfter (rewindTo st0 2).tree 2 = [] ∧
    (∀ id ∈ (rewindTo st0 2).tree, (getSent (rewindTo st0 2) id).isSome = true) ∧
    (∀ x ∈ (rewindTo st0 2).sentences, x.stateId ∈ (rewindTo st0 2).tree) ∧
    (∀ id ∈ treeAfter st0.tree 2, getSent (rewindTo st0 2) id = none ∧
      ∃ sent, getSent st0 id = some sent ∧
        Event.clearSentence sent.range ∈ (rewindTo st0 2).events) :=
  C6_rewindTo_invariant st0 2 (by decide) (by decide) rfl (by decide) (by decide)

/-- Claim C5: `focusSentence(target)` is a no-op when the target already has
focus; otherwise the backend edit-at request on the target is issued (the
`coqEditAt` event is appended right after the prior trace), and then: with a
`new_focus` response carrying the qed state id, exactly the sentences
strictly between target and the qed sentence are removed (they vanish from
the index; the qed sentence and everything after it survive in tree and
index) and the focus becomes the target; with no `new_focus`, all
descendants of the target are removed and focus (and last) become the
target. -/
theorem C5_focusSentence_spec (st : STMState) (target qed : Nat)
    (fb : Nat → EditAtResponse)
    (hnd : st.tree.Nodup)
    (hmemT : ∀ id ∈ st.tree, (getSent st id).isSome = true) :
    (st.focusedSentence = some target → ∀ resp, focusSentence st target resp fb = st) ∧
    (st.focusedSentence ≠ some target → qed ∈ treeAfter st.tree target → target ∈ st.tree →
      (focusSentence st target (EditAtResponse.value (some qed)) fb).tree =
        treeUpTo st.tree target ++ qed :: treeAfter st.tree qed ∧
      (focusSentence st target (EditAtResponse.value (some qed)) fb).focusedSentence =
        some target ∧
      (focusSentence st target (EditAtResponse.value (some qed)) fb).lastSentence =
        st.lastSentence ∧
      (∀ id ∈ treeBetween st.tree target qed,
        getSent (focusSentence st target (EditAtResponse.value (some qed)) fb) id = none) ∧
      (∀ id ∈ (focusSentence st target (EditAtResponse.value (some qed)) fb).tree,
        (getSent (focusSentence st target (EditAtResponse.value (some qed)) fb) id).isSome =
          true) ∧
      (∃ t, (focusSentence st target (EditAtResponse.value (some qed)) fb).events =
        st.events ++ Event.coqEditAt target :: t)) ∧
    (st.focusedSentence ≠ some target → target ∈ st.tree →
      (focusSentence st target (EditAtResponse.value none) fb).tree =
        treeUpTo st.tree target ∧
      (focusSentence st target (EditAtResponse.value none) fb).focusedSentence = some target ∧
      (focusSentence st target (EditAtResponse.value none) fb).lastSentence = some target ∧
      treeAfter (focusSentence st target (EditAtResponse.value none) fb).tree target = [] ∧
      (∀ id ∈ treeAfter st.tree target,
        getSent (focusSentence st target (EditAtResponse.value none) fb) id = none) ∧
      (∃ t, (focusSentence st target (EditAtResponse.value none) fb).events =
        st.events ++ Event.coqEditAt target :: t)) := by
  refine ⟨?_, ?_, ?_⟩
  · intro hfoc resp
    have hbeq : (st.focusedSentence == some target) = true := by
      rw [hfoc]
      simp
    unfold focusSentence
    rw [hbeq]
    simp
  · intro hne hq htm
    have hbeq : (st.focusedSentence == some target) = false := by
      cases hx : st.focusedSentence == some target with
      | false => rfl
      | true => exact absurd (by simpa using hx) hne
    have hred : focusSentence st target (EditAtResponse.value (some qed)) fb =
        { rewindRange { st with events := st.events ++ [Event.coqEditAt target] } target qed
          with focusedSentence := some target } := by
      simp [focusSentence, hbeq, emitReq]
    set st1 : STMState := { st with events := st.events ++ [Event.coqEditAt target] } with hst1
    have hfields := rewindRange_fields st1 target qed
    have ht1tree : st1.tree = st.tree := rfl
    have ht1sent : st1.sentences = st.sentences := rfl
    have hsplit := treeUpTo_append_treeAfter st.tree target htm
    have hqup : qed ∉ treeUpTo st.tree target := by
      intro hc
      exact ((mem_treeUpTo_iff htm hnd).mp hc).2 hq
    have hdrop : (treeAfter st.tree target).dropWhile (fun x => x != qed) =
        qed :: treeAfter (treeAfter st.tree target) qed :=
      dropWhile_ne_of_mem _ qed hq
    have hafter_eq : treeAfter (treeAfter st.tree target) qed = treeAfter st.tree qed := by
      conv_rhs => rw [← hsplit]
      rw [treeAfter_append_of_not_mem _ _ _ hqup]
    have htree3 : st.tree = treeUpTo st.tree target ++
        (treeBetween st.tree target qed ++ qed :: treeAfter st.tree qed) := by
      conv_lhs => rw [← hsplit]
      rw [← hafter_eq, ← hdrop]
      rw [treeBetween, List.takeWhile_append_dropWhile]
    have hnd3 : (treeUpTo st.tree target ++
        (treeBetween st.tree target qed ++ qed :: treeAfter st.tree qed)).Nodup := by
      rw [← htree3]
      exact hnd
    rw [List.nodup_append] at hnd3
    have hnd4 := hnd3.2.1
    rw [List.nodup_append] at hnd4
    have htreeEq : (focusSentence st target (EditAtResponse.value (some qed)) fb).tree =
        treeUpTo st.tree target ++ qed :: treeAfter st.tree qed := by
      rw [hred]
      show (rewindRange st1 target qed).tree = _
      rw [hfields.1, treeRemoveBetween, ht1tree, hdrop, hafter_eq]
    have hGS : ∀ id, getSent (focusSentence st target (EditAtResponse.value (some qed)) fb) id
        = getSent (deleteFold st1 (treeBetween st.tree target qed)) id := by
      intro id
      rw [hred]
      show getSentList (rewindRange st1 target qed).sentences id = _
      rw [hfields.2.2.2.1]
      rfl
    have hGS2 : ∀ id, getSent (deleteFold st1 (treeBetween st.tree target qed)) id =
        if id ∈ treeBetween st.tree target qed then none else getSent st id := by
      intro id
      rw [getSent_deleteFold]
      rfl
    refine ⟨htreeEq, by rw [hred], ?_, ?_, ?_, ?_⟩
    · rw [hred]
      show (rewindRange st1 target qed).lastSentence = st.lastSentence
      rw [hfields.2.2.1]
    · intro id hid
      rw [hGS, hGS2, if_pos hid]
    · intro id hid
      rw [htreeEq] at hid
      rw [hGS, hGS2]
      have hidt : id ∈ st.tree := by
        rw [htree3]
        rcases List.mem_append.mp hid with h1 | h1
        · exact List.mem_append_left _ h1
        · exact List.mem_append_right _ (List.mem_append_right _ h1)
      have hidnb : id ∉ treeBetween st.tree target qed := by
        intro hc
        rcases List.mem_append.mp hid with h1 | h1
        · exact hnd3.2.2 h1 (List.mem_append_left _ hc)
        · exact hnd4.2.2 hc h1
      rw [if_neg hidnb]
      exact hmemT id hidt
    · exact focusSentence_events_mono_of_ne st target (EditAtResponse.value (some qed)) fb hne
  · intro hne htm
    have hbeq : (st.focusedSentence == some target) = false := by
      cases hx : st.focusedSentence == some target with
      | false => rfl
      | true => exact absurd (by simpa using hx) hne
    have hred : focusSentence st target (EditAtResponse.value none) fb =
        { rewindTo { st with events := st.events ++ [Event.coqEditAt target] } target
          with focusedSentence := some target } := by
      simp [focusSentence, hbeq, emitReq]
    set st1 : STMState := { st with events := st.events ++ [Event.coqEditAt target] } with hst1
    have hfields := rewindTo_fields st1 target
    have htreeEq : (focusSentence st target (EditAtResponse.value none) fb).tree =
        treeUpTo st.tree target := by
      rw [hred]
      show (rewindTo st1 target).tree = _
      rw [hfields.1]
    refine ⟨htreeEq, by rw [hred], ?_, ?_, ?_, ?_⟩
    · rw [hred]
      show (rewindTo st1 target).lastSentence = some target
      rw [hfields.2.2.1]
    · rw [htreeEq]
      exact treeAfter_treeUpTo st.tree target
    · intro id hid
      rw [hred]
      show getSentList (rewindTo st1 target).sentences id = none
      rw [hfields.2.2.2.1]
      have : getSentList (deleteFold st1 (treeAfter st1.tree target)).sentences id =
          getSent (deleteFold st1 (treeAfter st1.tree target)) id := rfl
      rw [this, getSent_deleteFold]
      have hid1 : id ∈ treeAfter st1.tree target := hid
      rw [if_pos hid1]
    · exact focusSentence_events_mono_of_ne st target (EditAtResponse.value none) fb hne

/-- Witness for claim C5: on the linear state, focusing the focused sentence
4 is a no-op; focusing sentence 2 with a new-focus response naming qed
sentence 4 issues the edit-at request on 2, removes exactly sentence 3 and
focuses 2. -/
theorem C5_focusSentence_spec_witness :
    focusSentence st0 4 (EditAtResponse.value none) (fun _ => EditAtResponse.value none) = st0 ∧
    (focusSentence st0 2 (EditAtResponse.value (some 4))
        (fun _ => EditAtResponse.value none)).tree =
      treeUpTo st0.tree 2 ++ 4 :: treeAfter st0.tree 4 ∧
    (focusSentence st0 2 (EditAtResponse.value (some 4))
        (fun _ => EditAtResponse.value none)).focusedSentence = some 2 ∧
    (∃ t, (focusSentence st0 2 (EditAtResponse.value (some 4))
        (fun _ => EditAtResponse.value none)).events =
      st0.events ++ Event.coqEditAt 2 :: t) := by
  have h1 := (C5_focusSentence_spec st0 4 4 (fun _ => EditAtResponse.value none)
    (by decide) (by decide)).1 rfl (EditAtResponse.value none)
  have h2 := (C5_focusSentence_spec st0 2 4 (fun _ => EditAtResponse.value none)
    (by decide) (by decide)).2.1 (by decide) (by decide) (by decide)
  exact ⟨h1, h2.1, h2.2.1, h2.2.2.2.2.2⟩

set_option maxRecDepth 4000 in
/-- Claim C3 (amended): on a backend failure, when the fallback state id is
supplied, nonzero (a zero id is treated as absent by the JS truthiness
test) and known to the index, the STM issues edit-at on it and rewinds the
tree to that sentence; in every failure case it raises `FailValue` whose
message is the backend message and whose range translates the intra-text
offsets through `positionAtRelative` anchored at the command range start. -/
theorem C3_addCommand_failure (st : STMState) (cmd : Command) (vb : Bool)
    (editAt : Nat → EditAtResponse) (f : Nat) (fs : Sent) (msg : String) (rs rt : Nat)
    (hf : st.focusedSentence = some f) (hfs : getSent st f = some fs)
    (hpre : positionIsEqual fs.range.stop cmd.range.start = true) :
    (∀ fid fsent, fid ≠ 0 → getSent st fid = some fsent →
      editAt fid = EditAtResponse.value none →
      (addCommand st cmd vb (AddResponse.failure (some fid) msg rs rt) editAt).2 =
        AddOutcome.failValue msg
          ⟨positionAtRelative cmd.range.start cmd.text rs,
           positionAtRelative cmd.range.start cmd.text rt⟩ ∧
      Event.coqEditAt fid ∈
        (addCommand st cmd vb (AddResponse.failure (some fid) msg rs rt) editAt).1.events ∧
      (addCommand st cmd vb (AddResponse.failure (some fid) msg rs rt) editAt).1.tree =
        treeUpTo st.tree fid ∧
      (addCommand st cmd vb (AddResponse.failure (some fid) msg rs rt) editAt).1.focusedSentence =
        some fid ∧
      (addCommand st cmd vb (AddResponse.failure (some fid) msg rs rt) editAt).1.lastSentence =
        some fid) ∧
    ((addCommand st cmd vb (AddResponse.failure none msg rs rt) editAt).2 =
        AddOutcome.failValue msg
          ⟨positionAtRelative cmd.range.start cmd.text rs,
           positionAtRelative cmd.range.start cmd.text rt⟩ ∧
     (addCommand st cmd vb (AddResponse.failure none msg rs rt) editAt).1.events =
       st.events ++ [Event.coqAddCommand cmd.text st.version fs.stateId vb] ∧
     (addCommand st cmd vb (AddResponse.failure none msg rs rt) editAt).1.tree = st.tree) := by
  have hbind : st.focusedSentence.bind (getSent st) = some fs := by
    rw [hf]
    exact hfs
  constructor
  · intro fid fsent hfid hlook hresp
    have hbne : (fid != 0) = true := by simpa using hfid
    have hred : addCommand st cmd vb (AddResponse.failure (some fid) msg rs rt) editAt =
        (gotoErrorFallbackState
          { st with events := st.events ++ [Event.coqAddCommand cmd.text st.version fs.stateId vb] }
          fid (editAt fid),
         AddOutcome.failValue msg
          ⟨positionAtRelative cmd.range.start cmd.text rs,
           positionAtRelative cmd.range.start cmd.text rt⟩) := by
      simp [addCommand, hbind, hpre, hbne, emitReq]
    set st1 : STMState :=
      { st with events := st.events ++ [Event.coqAddCommand cmd.text st.version fs.stateId vb] }
      with hst1
    have hlook1 : getSent st1 fid = some fsent := hlook
    have hsid : fsent.stateId = fid := getSentList_some_stateId hlook
    have hred2 : gotoErrorFallbackState st1 fid (editAt fid) =
        rewindTo { st1 with events := st1.events ++ [Event.coqEditAt fid] } fid := by
      rw [hresp]
      unfold gotoErrorFallbackState emitReq
      rw [hlook1]
      dsimp only
      rw [hsid]
    set st2 : STMState := { st1 with events := st1.events ++ [Event.coqEditAt fid] } with hst2
    have hfields := rewindTo_fields st2 fid
    refine ⟨by rw [hred], ?_, ?_, ?_, ?_⟩
    · rw [hred]
      show Event.coqEditAt fid ∈ (gotoErrorFallbackState st1 fid (editAt fid)).events
      rw [hred2]
      obtain ⟨t, ht⟩ := rewindTo_events_mono st2 fid
      rw [ht]
      have : Event.coqEditAt fid ∈ st2.events := by
        show Event.coqEditAt fid ∈ st1.events ++ [Event.coqEditAt fid]
        simp
      exact List.mem_append_left _ this
    · rw [hred]
      show (gotoErrorFallbackState st1 fid (editAt fid)).tree = treeUpTo st.tree fid
      rw [hred2, hfields.1]
    · rw [hred]
      show (gotoErrorFallbackState st1 fid (editAt fid)).focusedSentence = some fid
      rw [hred2, hfields.2.1]
    · rw [hred]
      show (gotoErrorFallbackState st1 fid (editAt fid)).lastSentence = some fid
      rw [hred2, hfields.2.2.1]
  · have hred : addCommand st cmd vb (AddResponse.failure none msg rs rt) editAt =
        ({ st with events := st.events ++ [Event.coqAddCommand cmd.text st.version fs.stateId vb] },
         AddOutcome.failValue msg
          ⟨positionAtRelative cmd.range.start cmd.text rs,
           positionAtRelative cmd.range.start cmd.text rt⟩) := by
      simp [addCommand, hbind, hpre, emitReq]
    rw [hred]
    exact ⟨rfl, rfl, rfl⟩

/-- Witness for claim C3: a failing add on the linear state with fallback
state id 2; edit-at 2 is issued, the tree rewinds to [1, 2], and the
FailValue carries the translated range (0,10)-(0,12). -/
theorem C3_addCommand_failure_witness :
    (addCommand st0 ⟨"Bad.", mkRange 0 9 0 13⟩ false
        (AddResponse.failure (some 2) "syntax" 1 3)
        (fun _ => EditAtResponse.value none)).2 =
      AddOutcome.failValue "syntax" ⟨⟨0, 10⟩, ⟨0, 12⟩⟩ ∧
    Event.coqEditAt 2 ∈ (addCommand st0 ⟨"Bad.", mkRange 0 9 0 13⟩ false
        (AddResponse.failure (some 2) "syntax" 1 3)
        (fun _ => EditAtResponse.value none)).1.events ∧
    (addCommand st0 ⟨"Bad.", mkRange 0 9 0 13⟩ false
        (AddResponse.failure (some 2) "syntax" 1 3)
        (fun _ => EditAtResponse.value none)).1.tree = [1, 2] ∧
    (addCommand st0 ⟨"Bad.", mkRange 0 9 0 13⟩ false
        (AddResponse.failure (some 2) "syntax" 1 3)
        (fun _ => EditAtResponse.value none)).1.focusedSentence = some 2 := by
  have h := (C3_addCommand_failure st0 ⟨"Bad.", mkRange 0 9 0 13⟩ false
    (fun _ => EditAtResponse.value none) 4 sentC "syntax" 1 3
    rfl rfl (by decide)).1 2 sentA (by decide) rfl rfl
  have hr1 : positionAtRelative (mkRange 0 9 0 13).start "Bad." 1 = (⟨0, 10⟩ : Pos) := by decide
  have hr2 : positionAtRelative (mkRange 0 9 0 13).start "Bad." 3 = (⟨0, 12⟩ : Pos) := by decide
  have ht : treeUpTo st0.tree 2 = [1, 2] := by decide
  refine ⟨?_, h.2.1, ?_, h.2.2.2.1⟩
  · rw [h.1, hr1, hr2]
  · rw [h.2.2.1, ht]

theorem applyBufferedFeedback_nil (st : STMState) (h : st.bufferedFeedback = []) :
    applyBufferedFeedback st = { st with bufferedFeedback := [] } := by
  unfold applyBufferedFeedback
  rw [h]
  rfl


theorem getSentList_mapSet_key (m : List Sent) (s : Sent) (id : Nat)
    (h : s.stateId = id) : getSentList (mapSet m s) id = some s := by
  subst h
  exact getSentList_mapSet_self m s

theorem fire_frame (st : STMState) (e : Event) :
    (fire st e).sentences = st.sentences ∧
    (fire st e).tree = st.tree ∧
    (fire st e).focusedSentence = st.focusedSentence ∧
    (fire st e).lastSentence = st.lastSentence ∧
    (fire st e).bufferedFeedback = st.bufferedFeedback := by
  unfold fire
  cases st.callbacksLive <;> exact ⟨rfl, rfl, rfl, rfl, rfl⟩

theorem applyFeedbackStep_frame (st : STMState) (fb : FeedbackRecord) :
    (applyFeedbackStep st fb).tree = st.tree ∧
    (applyFeedbackStep st fb).focusedSentence = st.focusedSentence ∧
    (applyFeedbackStep st fb).lastSentence = st.lastSentence ∧
    (applyFeedbackStep st fb).bufferedFeedback = st.bufferedFeedback := by
  unfold applyFeedbackStep
  cases hg : getSent st fb.stateId with
  | none => exact ⟨rfl, rfl, rfl, rfl⟩
  | some s =>
    dsimp only
    have h := fire_frame { st with sentences := (mapSet st.sentences
        { s with status := updateStatus s.status fb.status }) }
      (Event.sentenceStatusUpdate s.range (updateStatus s.status fb.status))
    exact ⟨h.2.1, h.2.2.1, h.2.2.2.1, h.2.2.2.2⟩

theorem applyFeedbackStep_getSent_pres (st : STMState) (fb : FeedbackRecord) (id : Nat)
    (s : Sent) (h : getSent st id = some s) :
    ∃ s2, getSent (applyFeedbackStep st fb) id = some s2 ∧
      s2.stateId = s.stateId ∧ s2.text = s.text ∧ s2.range = s.range := by
  unfold applyFeedbackStep
  cases hg : getSent st fb.stateId with
  | none => exact ⟨s, h, rfl, rfl, rfl⟩
  | some t =>
    dsimp only
    have hsid : t.stateId = fb.stateId := getSentList_some_stateId hg
    by_cases hid : id = fb.stateId
    · subst hid
      have hts : s = t := by
        rw [hg] at h
        injection h with h2
        exact h2.symm
      subst hts
      refine ⟨{ s with status := updateStatus s.status fb.status }, ?_, rfl, rfl, rfl⟩
      show getSentList (fire _ _).sentences fb.stateId = _
      rw [(fire_frame _ _).1]
      dsimp only
      exact getSentList_mapSet_key _ _ _ hsid
    · refine ⟨s, ?_, rfl, rfl, rfl⟩
      show getSentList (fire _ _).sentences id = some s
      rw [(fire_frame _ _).1]
      dsimp only
      rw [getSentList_mapSet_ne _ { t with status := updateStatus t.status fb.status } _
        (show id ≠ t.stateId from by rw [hsid]; exact hid)]
      exact h

theorem applyFeedbackStep_getSent_untouched (st : STMState) (fb : FeedbackRecord) (id : Nat)
    (h : fb.stateId ≠ id) :
    getSent (applyFeedbackStep st fb) id = getSent st id := by
  unfold applyFeedbackStep
  cases hg : getSent st fb.stateId with
  | none => rfl
  | some t =>
    dsimp only
    have hsid : t.stateId = fb.stateId := getSentList_some_stateId hg
    show getSentList (fire _ _).sentences id = getSent st id
    rw [(fire_frame _ _).1]
    dsimp only
    rw [getSentList_mapSet_ne _ { t with status := updateStatus t.status fb.status } _
      (show id ≠ t.stateId from by rw [hsid]; exact fun he => h he.symm)]
    rfl

theorem bufFoldl_frame (L : List FeedbackRecord) (st : STMState) :
    (L.foldl applyFeedbackStep st).tree = st.tree ∧
    (L.foldl applyFeedbackStep st).focusedSentence = st.focusedSentence ∧
    (L.foldl applyFeedbackStep st).lastSentence = st.lastSentence := by
  induction L generalizing st with
  | nil => exact ⟨rfl, rfl, rfl⟩
  | cons fb L ih =>
    rw [List.foldl_cons]
    have h1 := applyFeedbackStep_frame st fb
    have h2 := ih (applyFeedbackStep st fb)
    exact ⟨h2.1.trans h1.1, h2.2.1.trans h1.2.1, h2.2.2.trans h1.2.2.1⟩

theorem bufFoldl_getSent_pres (L : List FeedbackRecord) (st : STMState) (id : Nat)
    (s : Sent) (h : getSent st id = some s) :
    ∃ s2, getSent (L.foldl applyFeedbackStep st) id = some s2 ∧
      s2.stateId = s.stateId ∧ s2.text = s.text ∧ s2.range = s.range := by
  induction L generalizing st s with
  | nil => exact ⟨s, h, rfl, rfl, rfl⟩
  | cons fb L ih =>
    rw [List.foldl_cons]
    obtain ⟨s1, hs1, ha1, hb1, hc1⟩ := applyFeedbackStep_getSent_pres st fb id s h
    obtain ⟨s2, hs2, ha2, hb2, hc2⟩ := ih (applyFeedbackStep st fb) s1 hs1
    exact ⟨s2, hs2, ha2.trans ha1, hb2.trans hb1, hc2.trans hc1⟩

theorem bufFoldl_getSent_untouched (L : List FeedbackRecord) (st : STMState) (id : Nat)
    (h : ∀ fb ∈ L, fb.stateId ≠ id) :
    getSent (L.foldl applyFeedbackStep st) id = getSent st id := by
  induction L generalizing st with
  | nil => rfl
  | cons fb L ih =>
    rw [List.foldl_cons]
    rw [ih (applyFeedbackStep st fb) (fun g hg => h g (List.mem_cons_of_mem fb hg))]
    exact applyFeedbackStep_getSent_untouched st fb id (h fb (List.mem_cons_self fb L))

theorem applyBufferedFeedback_tree (st : STMState) :
    (applyBufferedFeedback st).tree = st.tree :=
  (bufFoldl_frame st.bufferedFeedback st).1

theorem applyBufferedFeedback_last (st : STMState) :
    (applyBufferedFeedback st).lastSentence = st.lastSentence :=
  (bufFoldl_frame st.bufferedFeedback st).2.2

theorem applyBufferedFeedback_drained (st : STMState) :
    (applyBufferedFeedback st).bufferedFeedback = [] := rfl

theorem applyBufferedFeedback_getSent_pres (st : STMState) (id : Nat) (s : Sent)
    (h : getSent st id = some s) :
    ∃ s2, getSent (applyBufferedFeedback st) id = some s2 ∧
      s2.stateId = s.stateId ∧ s2.text = s.text ∧ s2.range = s.range :=
  bufFoldl_getSent_pres st.bufferedFeedback st id s h

theorem applyBufferedFeedback_getSent_untouched (st : STMState) (id : Nat)
    (h : ∀ fb ∈ st.bufferedFeedback, fb.stateId ≠ id) :
    getSent (applyBufferedFeedback st) id = getSent st id :=
  bufFoldl_getSent_untouched st.bufferedFeedback st id h

set_option maxRecDepth 8000 in
theorem addCommandSuccess_spec (st1 : STMState) (pid nid : Nat) (unf : Option Nat)
    (cmd : Command) (l : Nat) (ls : Sent)
    (hlast : st1.lastSentence = some l) (hls : getSentList st1.sentences l = some ls)
    (hfresh : getSentList st1.sentences nid = none) :
    (∃ s, getSent (addCommandSuccess st1 pid nid unf cmd).1 nid = some s ∧
      s.stateId = nid ∧ s.text = cmd.text ∧ s.range = cmd.range) ∧
    ((∀ fb ∈ st1.bufferedFeedback, fb.stateId ≠ nid) →
      getSent (addCommandSuccess st1 pid nid unf cmd).1 nid =
        some ⟨nid, cmd.text, cmd.range, SentenceStatus.ProcessingInput⟩) ∧
    (addCommandSuccess st1 pid nid unf cmd).1.tree = treeInsertAfter st1.tree pid nid ∧
    (addCommandSuccess st1 pid nid unf cmd).1.bufferedFeedback = [] ∧
    ((addCommandSuccess st1 pid nid unf cmd).1.lastSentence = some nid ↔
      positionIsAfterOrEqual cmd.range.start ls.range.stop = true) ∧
    (∀ u, unf = some u → u ≠ 0 → (getSentList st1.sentences u).isSome = true →
      (addCommandSuccess st1 pid nid unf cmd).1.focusedSentence = some u) ∧
    ((unf = none ∨ unf = some 0) →
      (addCommandSuccess st1 pid nid unf cmd).1.focusedSentence = some nid) ∧
    (addCommandSuccess st1 pid nid unf cmd).2 = AddOutcome.ok nid unf.isSome := by
  have hlne : l ≠ nid := by
    intro he
    rw [he, hfresh] at hls
    cases hls
  have hstat : ∀ s : Sent,
      (({ s with status := updateStatus s.status SentenceStatus.ProcessingInput }) : Sent).stateId
        = s.stateId := fun _ => rfl
  unfold addCommandSuccess
  dsimp only
  generalize hA : applyBufferedFeedback
      { st1 with tree := treeInsertAfter st1.tree pid nid,
                 sentences := mapSet st1.sentences
                   ⟨nid, cmd.text, cmd.range, SentenceStatus.ProcessingInput⟩ } = st3
  have h3last : st3.lastSentence = some l := by
    rw [← hA]
    exact (applyBufferedFeedback_last _).trans hlast
  have h3tree : st3.tree = treeInsertAfter st1.tree pid nid := by
    rw [← hA]
    exact applyBufferedFeedback_tree _
  have h3buf : st3.bufferedFeedback = [] := by
    rw [← hA]
    exact applyBufferedFeedback_drained _
  have hg2l : getSentList (mapSet st1.sentences
      (⟨nid, cmd.text, cmd.range, SentenceStatus.ProcessingInput⟩ : Sent)) l = some ls := by
    rw [getSentList_mapSet_ne _ _ _ hlne]
    exact hls
  have h3l : ∃ s2, getSent st3 l = some s2 ∧
      s2.stateId = ls.stateId ∧ s2.text = ls.text ∧ s2.range = ls.range := by
    rw [← hA]
    exact applyBufferedFeedback_getSent_pres
      { st1 with tree := treeInsertAfter st1.tree pid nid,
                 sentences := mapSet st1.sentences
                   ⟨nid, cmd.text, cmd.range, SentenceStatus.ProcessingInput⟩ } l ls hg2l
  obtain ⟨ls3, hls3, hlsid3, hlst3, hlsr3⟩ := h3l
  have hg2n : getSentList (mapSet st1.sentences
      (⟨nid, cmd.text, cmd.range, SentenceStatus.ProcessingInput⟩ : Sent)) nid =
      some (⟨nid, cmd.text, cmd.range, SentenceStatus.ProcessingInput⟩ : Sent) :=
    getSentList_mapSet_key _ _ _ rfl
  have h3n : ∃ s2, getSent st3 nid = some s2 ∧
      s2.stateId = nid ∧ s2.text = cmd.text ∧ s2.range = cmd.range := by
    rw [← hA]
    exact applyBufferedFeedback_getSent_pres
      { st1 with tree := treeInsertAfter st1.tree pid nid,
                 sentences := mapSet st1.sentences
                   ⟨nid, cmd.text, cmd.range, SentenceStatus.ProcessingInput⟩ } nid _ hg2n
  obtain ⟨s3, hs3, hs3id, hs3t, hs3r⟩ := h3n
  have h3n_eq : (∀ fb ∈ st1.bufferedFeedback, fb.stateId ≠ nid) →
      getSent st3 nid =
        some (⟨nid, cmd.text, cmd.range, SentenceStatus.ProcessingInput⟩ : Sent) := by
    intro hnb
    rw [← hA]
    rw [applyBufferedFeedback_getSent_untouched
      { st1 with tree := treeInsertAfter st1.tree pid nid,
                 sentences := mapSet st1.sentences
                   ⟨nid, cmd.text, cmd.range, SentenceStatus.ProcessingInput⟩ } nid hnb]
    exact hg2n
  have h3u : ∀ u, u ≠ nid → (getSentList st1.sentences u).isSome = true →
      (getSentList st3.sentences u).isSome = true := by
    intro u hu hus
    cases hvv : getSentList st1.sentences u with
    | none =>
      rw [hvv] at hus
      cases hus
    | some sv =>
      have hg2u : getSentList (mapSet st1.sentences
          (⟨nid, cmd.text, cmd.range, SentenceStatus.ProcessingInput⟩ : Sent)) u = some sv := by
        rw [getSentList_mapSet_ne _ _ _ hu]
        exact hvv
      obtain ⟨sv3, hsv3, hsv3id, hsv3t, hsv3r⟩ := applyBufferedFeedback_getSent_pres
        { st1 with tree := treeInsertAfter st1.tree pid nid,
                   sentences := mapSet st1.sentences
                     ⟨nid, cmd.text, cmd.range, SentenceStatus.ProcessingInput⟩ } u sv hg2u
      have hss : getSentList st3.sentences u = some sv3 := by
        rw [← hA]
        exact hsv3
      rw [hss]
      rfl
  have hg4n : getSentList (mapUpdate st3.sentences nid
      (fun s => { s with status := updateStatus s.status SentenceStatus.ProcessingInput })) nid =
      some { s3 with status := updateStatus s3.status SentenceStatus.ProcessingInput } := by
    rw [getSentList_mapUpdate_self _ _ _ hstat]
    rw [show getSentList st3.sentences nid = some s3 from hs3]
    rfl
  have hg4npi : (∀ fb ∈ st1.bufferedFeedback, fb.stateId ≠ nid) →
      getSentList (mapUpdate st3.sentences nid
        (fun s => { s with status := updateStatus s.status SentenceStatus.ProcessingInput })) nid =
      some (⟨nid, cmd.text, cmd.range, SentenceStatus.ProcessingInput⟩ : Sent) := by
    intro hnb
    rw [getSentList_mapUpdate_self _ _ _ hstat]
    rw [show getSentList st3.sentences nid =
      some (⟨nid, cmd.text, cmd.range, SentenceStatus.ProcessingInput⟩ : Sent) from h3n_eq hnb]
    rfl
  have hg4u : ∀ u, u ≠ nid →
      getSentList (mapUpdate st3.sentences nid
        (fun s => { s with status := updateStatus s.status SentenceStatus.ProcessingInput })) u =
      getSentList st3.sentences u := by
    intro u hu
    rw [getSentList_mapUpdate_ne _ _ _ _ hstat hu]
  simp only [h3last]
  simp only [Option.some_bind]
  simp only [show getSent { st3 with
      sentences := mapUpdate st3.sentences nid
        (fun s => { s with status := updateStatus s.status SentenceStatus.ProcessingInput }),
      lastSentence := some l } l = some ls3 from by
    show getSentList (mapUpdate st3.sentences nid
      (fun s => { s with status := updateStatus s.status SentenceStatus.ProcessingInput })) l
      = some ls3
    rw [getSentList_mapUpdate_ne _ _ _ _ hstat hlne]
    exact hls3]
  simp only [hlsr3]
  by_cases hc : positionIsAfterOrEqual cmd.range.start ls.range.stop = true
  · rw [if_pos hc]
    rcases unf with _ | u
    · dsimp only
      refine ⟨⟨{ s3 with status := updateStatus s3.status SentenceStatus.ProcessingInput },
        hg4n, hs3id, hs3t, hs3r⟩, hg4npi, h3tree, h3buf, ?_, ?_, ?_, by trivial⟩
      · simp [hc]
      · intro u h
        cases h
      · intro _
        rfl
    · dsimp only
      by_cases hu : (u != 0) = true
      · rw [if_pos hu]
        refine ⟨⟨{ s3 with status := updateStatus s3.status SentenceStatus.ProcessingInput },
          hg4n, hs3id, hs3t, hs3r⟩, hg4npi, h3tree, h3buf, ?_, ?_, ?_, by trivial⟩
        · simp [hc]
        · intro v hv hv0 hvs
          have huv : u = v := by injection hv
          subst huv
          have hvne : u ≠ nid := by
            intro he
            rw [he, hfresh] at hvs
            cases hvs
          show (if (getSent _ u).isSome = true then some u else none) = some u
          rw [show (getSent _ u).isSome = true from by
            dsimp only [getSent]
            rw [hg4u u hvne]
            exact h3u u hvne hvs]
          rw [if_pos rfl]
        · intro h
          rcases h with h | h
          · cases h
          · have hu0 : u = 0 := by injection h
            have : u ≠ 0 := by simpa using hu
            exact absurd hu0 this
      · rw [if_neg hu]
        refine ⟨⟨{ s3 with status := updateStatus s3.status SentenceStatus.ProcessingInput },
          hg4n, hs3id, hs3t, hs3r⟩, hg4npi, h3tree, h3buf, ?_, ?_, ?_, by trivial⟩
        · simp [hc]
        · intro v hv hv0 hvs
          have huv : u = v := by injection hv
          subst huv
          have : (u != 0) = true := by simpa using hv0
          exact absurd this hu
        · intro _
          rfl
  · rw [if_neg hc]
    rcases unf with _ | u
    · dsimp only
      refine ⟨⟨{ s3 with status := updateStatus s3.status SentenceStatus.ProcessingInput },
        hg4n, hs3id, hs3t, hs3r⟩, hg4npi, h3tree, h3buf, ?_, ?_, ?_, by trivial⟩
      · simp [hc, hlne]
      · intro u h
        cases h
      · intro _
        rfl
    · dsimp only
      by_cases hu : (u != 0) = true
      · rw [if_pos hu]
        refine ⟨⟨{ s3 with status := updateStatus s3.status SentenceStatus.ProcessingInput },
          hg4n, hs3id, hs3t, hs3r⟩, hg4npi, h3tree, h3buf, ?_, ?_, ?_, by trivial⟩
        · simp [hc, hlne]
        · intro v hv hv0 hvs
          have huv : u = v := by injection hv
          subst huv
          have hvne : u ≠ nid := by
            intro he
            rw [he, hfresh] at hvs
            cases hvs
          show (if (getSent _ u).isSome = true then some u else none) = some u
          rw [show (getSent _ u).isSome = true from by
            dsimp only [getSent]
            rw [hg4u u hvne]
            exact h3u u hvne hvs]
          rw [if_pos rfl]
        · intro h
          rcases h with h | h
          · cases h
          · have hu0 : u = 0 := by injection h
            have : u ≠ 0 := by simpa using hu
            exact absurd hu0 this
      · rw [if_neg hu]
        refine ⟨⟨{ s3 with status := updateStatus s3.status SentenceStatus.ProcessingInput },
          hg4n, hs3id, hs3t, hs3r⟩, hg4npi, h3tree, h3buf, ?_, ?_, ?_, by trivial⟩
        · simp [hc, hlne]
        · intro v hv hv0 hvs
          have huv : u = v := by injection hv
          subst huv
          have : (u != 0) = true := by simpa using hv0
          exact absurd this hu
        · intro _
          rfl

set_option maxRecDepth 8000 in
/-- Claim C2 (amended): a successful `addCommand` creates the new sentence
as child of the previously focused sentence and inserts it into the
state-id index; its status is set to `ProcessingInput` and stays so when no
buffered feedback targeted its fresh id; the feedback buffer is drained
(emptied) whatever it held; the last sentence is updated exactly when the
new range start is at or after the previous last range end; and the focus
moves to the sentence indexed by `unfocused_state_id` when that field is
present and nonzero (zero is falsy in the JS truthiness test and treated as
absent), else to the new sentence. -/
theorem C2_addCommand_success (st : STMState) (cmd : Command) (vb : Bool)
    (nid : Nat) (unf : Option Nat) (editAt : Nat → EditAtResponse)
    (f : Nat) (fs : Sent) (l : Nat) (ls : Sent)
    (hf : st.focusedSentence = some f) (hfs : getSent st f = some fs)
    (hpre : positionIsEqual fs.range.stop cmd.range.start = true)
    (hlast : st.lastSentence = some l) (hls : getSent st l = some ls)
    (hfresh : getSent st nid = none) (hfreshT : nid ∉ st.tree)
    (hft : f ∈ st.tree) :
    (∃ s, getSent (addCommand st cmd vb (AddResponse.value nid unf) editAt).1 nid = some s ∧
      s.stateId = nid ∧ s.text = cmd.text ∧ s.range = cmd.range) ∧
    ((∀ fb ∈ st.bufferedFeedback, fb.stateId ≠ nid) →
      getSent (addCommand st cmd vb (AddResponse.value nid unf) editAt).1 nid =
        some ⟨nid, cmd.text, cmd.range, SentenceStatus.ProcessingInput⟩) ∧
    treeParent (addCommand st cmd vb (AddResponse.value nid unf) editAt).1.tree nid = some f ∧
    (addCommand st cmd vb (AddResponse.value nid unf) editAt).1.bufferedFeedback = [] ∧
    ((addCommand st cmd vb (AddResponse.value nid unf) editAt).1.lastSentence = some nid ↔
      positionIsAfterOrEqual cmd.range.start ls.range.stop = true) ∧
    (∀ u, unf = some u → u ≠ 0 → (getSent st u).isSome = true →
      (addCommand st cmd vb (AddResponse.value nid unf) editAt).1.focusedSentence = some u) ∧
    ((unf = none ∨ unf = some 0) →
      (addCommand st cmd vb (AddResponse.value nid unf) editAt).1.focusedSentence = some nid) ∧
    (addCommand st cmd vb (AddResponse.value nid unf) editAt).2 =
      AddOutcome.ok nid unf.isSome := by
  have hbind : st.focusedSentence.bind (getSent st) = some fs := by
    rw [hf]
    exact hfs
  have hsidf : fs.stateId = f := getSentList_some_stateId hfs
  have hred : addCommand st cmd vb (AddResponse.value nid unf) editAt =
      addCommandSuccess
        { st with events := st.events ++ [Event.coqAddCommand cmd.text st.version f vb] }
        f nid unf cmd := by
    unfold addCommand
    rw [hbind]
    dsimp only
    rw [hpre]
    rw [if_neg (by decide : ¬ ((!true) = true))]
    unfold emitReq
    rw [hsidf]
  have h := addCommandSuccess_spec
    { st with events := st.events ++ [Event.coqAddCommand cmd.text st.version f vb] }
    f nid unf cmd l ls hlast hls hfresh
  rw [hred]
  refine ⟨h.1, h.2.1, ?_, h.2.2.2.1, h.2.2.2.2.1, h.2.2.2.2.2.1, h.2.2.2.2.2.2.1,
    h.2.2.2.2.2.2.2⟩
  rw [h.2.2.1]
  exact treeParent_insertAfter st.tree f nid hft hfreshT

/-- Witness for claim C2: adding "C." at the tip of the linear state with a
fresh state id 5 and no unfocused id, while feedback for sentence 3 is
buffered: the new sentence keeps status `ProcessingInput` (no buffered
record targets id 5), the nonempty buffer is drained, and the tree, last
sentence and focus move as specified. -/
theorem C2_addCommand_success_witness :
    getSent (addCommand { st0 with bufferedFeedback := [⟨3, SentenceStatus.Processed, "w"⟩] }
        ⟨"C.", mkRange 0 9 0 11⟩ false (AddResponse.value 5 none)
        (fun _ => EditAtResponse.value none)).1 5 =
      some ⟨5, "C.", mkRange 0 9 0 11, SentenceStatus.ProcessingInput⟩ ∧
    treeParent (addCommand { st0 with bufferedFeedback := [⟨3, SentenceStatus.Processed, "w"⟩] }
        ⟨"C.", mkRange 0 9 0 11⟩ false (AddResponse.value 5 none)
        (fun _ => EditAtResponse.value none)).1.tree 5 = some 4 ∧
    (addCommand { st0 with bufferedFeedback := [⟨3, SentenceStatus.Processed, "w"⟩] }
        ⟨"C.", mkRange 0 9 0 11⟩ false (AddResponse.value 5 none)
        (fun _ => EditAtResponse.value none)).1.bufferedFeedback = [] ∧
    ((addCommand { st0 with bufferedFeedback := [⟨3, SentenceStatus.Processed, "w"⟩] }
        ⟨"C.", mkRange 0 9 0 11⟩ false (AddResponse.value 5 none)
        (fun _ => EditAtResponse.value none)).1.lastSentence = some 5 ↔
      positionIsAfterOrEqual (mkRange 0 9 0 11).start (mkRange 0 4 0 9).stop = true) ∧
    ((none = (none : Option Nat) ∨ (none : Option Nat) = some 0) →
      (addCommand { st0 with bufferedFeedback := [⟨3, SentenceStatus.Processed, "w"⟩] }
        ⟨"C.", mkRange 0 9 0 11⟩ false (AddResponse.value 5 none)
        (fun _ => EditAtResponse.value none)).1.focusedSentence = some 5) := by
  have h := C2_addCommand_success
    { st0 with bufferedFeedback := [⟨3, SentenceStatus.Processed, "w"⟩] }
    ⟨"C.", mkRange 0 9 0 11⟩ false 5 none
    (fun _ => EditAtResponse.value none) 4 sentC 4 sentC
    rfl rfl (by decide) rfl rfl (by decide) (by decide) (by decide)
  exact ⟨h.2.1 (by decide), h.2.2.1, h.2.2.2.1, h.2.2.2.2.1, h.2.2.2.2.2.2.1⟩

theorem mapSet_of_fresh (m : List Sent) (s : Sent)
    (h : getSentList m s.stateId = none) : mapSet m s = m ++ [s] := by
  unfold mapSet
  have hany : (m.any fun x => x.stateId == s.stateId) = false := by
    rw [List.any_eq_false]
    rw [getSentList_none_iff] at h
    intro x hx
    simpa using h x hx
  rw [if_neg (by simp [hany])]

theorem getSentList_append_self (m : List Sent) (s : Sent)
    (h : getSentList m s.stateId = none) :
    getSentList (m ++ [s]) s.stateId = some s := by
  unfold getSentList at *
  rw [List.find?_append, h]
  simp [List.find?_cons]

theorem getSentList_append_left (m m2 : List Sent) (id : Nat) (x : Sent)
    (h : getSentList m id = some x) : getSentList (m ++ m2) id = some x := by
  unfold getSentList at *
  rw [List.find?_append, h]
  rfl

theorem mapSet_append_replace (m : List Sent) (a b : Sent) (hab : a.stateId = b.stateId)
    (hm : ∀ s ∈ m, s.stateId ≠ b.stateId) : mapSet (m ++ [a]) b = m ++ [b] := by
  unfold mapSet
  have hany : ((m ++ [a]).any fun s => s.stateId == b.stateId) = true := by
    rw [List.any_eq_true]
    exact ⟨a, by simp, by simp [hab]⟩
  rw [if_pos hany, List.map_append]
  congr 1
  · have h1 : ∀ s ∈ m, (if (s.stateId == b.stateId) = true then b else s) = (fun x => x) s := by
      intro s hs
      rw [if_neg (by simp [hm s hs])]
    rw [List.map_congr_left h1, List.map_id']
  · simp [hab]

theorem mapUpdate_append_single (m : List Sent) (a : Sent) (id : Nat) (F : Sent → Sent)
    (hm : ∀ s ∈ m, s.stateId ≠ id) (ha : a.stateId = id) (hFa : F a = a) :
    mapUpdate (m ++ [a]) id F = m ++ [a] := by
  unfold mapUpdate
  rw [List.map_append]
  congr 1
  · have h1 : ∀ s ∈ m, (if (s.stateId == id) = true then F s else s) = (fun x => x) s := by
      intro s hs
      rw [if_neg (by simp [hm s hs])]
    rw [List.map_congr_left h1, List.map_id']
  · simp [ha, hFa]

theorem applyBufferedFeedback_single (st : STMState) (fb : FeedbackRecord) (s : Sent)
    (hb : st.bufferedFeedback = [fb]) (hg : getSent st fb.stateId = some s)
    (hcb : st.callbacksLive = true) :
    applyBufferedFeedback st =
      { st with
        sentences := mapSet st.sentences { s with status := updateStatus s.status fb.status },
        events := st.events ++ [Event.sentenceStatusUpdate s.range (updateStatus s.status fb.status)],
        bufferedFeedback := [] } := by
  unfold applyBufferedFeedback
  rw [hb, List.foldl_cons, List.foldl_nil]
  unfold applyFeedbackStep
  rw [hg]
  dsimp only
  unfold fire
  rw [hcb]
  dsimp only [if_pos]
  rfl

set_option maxRecDepth 8000 in
/-- Claim C4: a state-status feedback buffered before the add that
introduces its state id is applied at the drain: the sentence ends with the
fed-back status (Processed), the `sentenceStatusUpdate` callback fires
exactly once for it, the buffer is emptied, and the resulting state is the
same as if the feedback had been delivered right after the add completed. -/
theorem C4_buffered_feedback (st : STMState) (cmd : Command) (vb : Bool)
    (nid : Nat) (w : String) (editAt : Nat → EditAtResponse)
    (f : Nat) (fs : Sent) (l : Nat) (ls : Sent)
    (hf : st.focusedSentence = some f) (hfs : getSent st f = some fs)
    (hpre : positionIsEqual fs.range.stop cmd.range.start = true)
    (hlast : st.lastSentence = some l) (hls : getSent st l = some ls)
    (hfresh : getSent st nid = none) (hcb : st.callbacksLive = true)
    (hcond : positionIsAfterOrEqual cmd.range.start ls.range.stop = true)
    (hbuf : st.bufferedFeedback = [⟨nid, SentenceStatus.Processed, w⟩]) :
    getSent (addCommand st cmd vb (AddResponse.value nid none) editAt).1 nid =
      some ⟨nid, cmd.text, cmd.range, SentenceStatus.Processed⟩ ∧
    (addCommand st cmd vb (AddResponse.value nid none) editAt).1.events =
      st.events ++ [Event.coqAddCommand cmd.text st.version f vb,
        Event.sentenceStatusUpdate cmd.range SentenceStatus.Processed] ∧
    (addCommand st cmd vb (AddResponse.value nid none) editAt).1.bufferedFeedback = [] ∧
    (addCommand st cmd vb (AddResponse.value nid none) editAt).1 =
      onCoqStateStatusUpdate
        (addCommand { st with bufferedFeedback := [] } cmd vb
          (AddResponse.value nid none) editAt).1
        nid 0 SentenceStatus.Processed w := by
  have hbind : st.focusedSentence.bind (getSent st) = some fs := by
    rw [hf]
    exact hfs
  have hsidf : fs.stateId = f := getSentList_some_stateId hfs
  have hmne : ∀ s ∈ st.sentences, s.stateId ≠ nid := by
    intro s hs
    exact (getSentList_none_iff st.sentences nid).mp hfresh s hs
  have hA : addCommand st cmd vb (AddResponse.value nid none) editAt =
      ({ st with
          sentences := st.sentences ++ [⟨nid, cmd.text, cmd.range, SentenceStatus.Processed⟩],
          tree := treeInsertAfter st.tree f nid,
          focusedSentence := some nid, lastSentence := some nid,
          bufferedFeedback := [],
          events := st.events ++ [Event.coqAddCommand cmd.text st.version f vb]
            ++ [Event.sentenceStatusUpdate cmd.range SentenceStatus.Processed] },
       AddOutcome.ok nid false) := by
    unfold addCommand
    rw [hbind]
    dsimp only
    rw [hpre, if_neg (by decide : ¬ ((!true) = true))]
    unfold emitReq
    rw [hsidf]
    unfold addCommandSuccess
    dsimp only
    rw [mapSet_of_fresh st.sentences
      (⟨nid, cmd.text, cmd.range, SentenceStatus.ProcessingInput⟩ : Sent) hfresh]
    rw [show applyBufferedFeedback { st with
        sentences := st.sentences ++ [⟨nid, cmd.text, cmd.range, SentenceStatus.ProcessingInput⟩],
        tree := treeInsertAfter st.tree f nid,
        events := st.events ++ [Event.coqAddCommand cmd.text st.version f vb] } =
      { st with
        sentences := mapSet
          (st.sentences ++ [⟨nid, cmd.text, cmd.range, SentenceStatus.ProcessingInput⟩])
          (⟨nid, cmd.text, cmd.range, SentenceStatus.Processed⟩ : Sent),
        tree := treeInsertAfter st.tree f nid,
        events := st.events ++ [Event.coqAddCommand cmd.text st.version f vb]
          ++ [Event.sentenceStatusUpdate cmd.range SentenceStatus.Processed],
        bufferedFeedback := [] } from
      applyBufferedFeedback_single _ ⟨nid, SentenceStatus.Processed, w⟩
        ⟨nid, cmd.text, cmd.range, SentenceStatus.ProcessingInput⟩
        hbuf
        (getSentList_append_self st.sentences _ hfresh)
        hcb]
    rw [mapSet_append_replace st.sentences
      (⟨nid, cmd.text, cmd.range, SentenceStatus.ProcessingInput⟩ : Sent)
      (⟨nid, cmd.text, cmd.range, SentenceStatus.Processed⟩ : Sent) rfl hmne]
    rw [mapUpdate_append_single st.sentences
      (⟨nid, cmd.text, cmd.range, SentenceStatus.Processed⟩ : Sent) nid
      (fun s => { s with status := updateStatus s.status SentenceStatus.ProcessingInput })
      hmne rfl rfl]
    rw [hlast]
    dsimp only [Option.some_bind]
    rw [show getSent { st with
        sentences := st.sentences ++ [⟨nid, cmd.text, cmd.range, SentenceStatus.Processed⟩],
        tree := treeInsertAfter st.tree f nid,
        events := st.events ++ [Event.coqAddCommand cmd.text st.version f vb]
          ++ [Event.sentenceStatusUpdate cmd.range SentenceStatus.Processed],
        bufferedFeedback := [], lastSentence := some l } l = some ls from
      getSentList_append_left st.sentences _ l ls hls]
    dsimp only
    rw [if_pos hcond]
    rfl
  have hB : addCommand { st with bufferedFeedback := [] } cmd vb
      (AddResponse.value nid none) editAt =
      ({ st with
          sentences := st.sentences ++ [⟨nid, cmd.text, cmd.range, SentenceStatus.ProcessingInput⟩],
          tree := treeInsertAfter st.tree f nid,
          focusedSentence := some nid, lastSentence := some nid,
          bufferedFeedback := [],
          events := st.events ++ [Event.coqAddCommand cmd.text st.version f vb] },
       AddOutcome.ok nid false) := by
    unfold addCommand
    rw [show ({ st with bufferedFeedback := [] } : STMState).focusedSentence.bind
        (getSent { st with bufferedFeedback := [] }) = some fs from hbind]
    dsimp only
    rw [hpre, if_neg (by decide : ¬ ((!true) = true))]
    unfold emitReq
    rw [hsidf]
    unfold addCommandSuccess
    dsimp only
    rw [mapSet_of_fresh st.sentences
      (⟨nid, cmd.text, cmd.range, SentenceStatus.ProcessingInput⟩ : Sent) hfresh]
    rw [show applyBufferedFeedback { st with
        sentences := st.sentences ++ [⟨nid, cmd.text, cmd.range, SentenceStatus.ProcessingInput⟩],
        tree := treeInsertAfter st.tree f nid,
        bufferedFeedback := [],
        events := st.events ++ [Event.coqAddCommand cmd.text st.version f vb] } =
      { st with
        sentences := st.sentences ++ [⟨nid, cmd.text, cmd.range, SentenceStatus.ProcessingInput⟩],
        tree := treeInsertAfter st.tree f nid,
        bufferedFeedback := [],
        events := st.events ++ [Event.coqAddCommand cmd.text st.version f vb] } from
      applyBufferedFeedback_nil _ rfl]
    rw [mapUpdate_append_single st.sentences
      (⟨nid, cmd.text, cmd.range, SentenceStatus.ProcessingInput⟩ : Sent) nid
      (fun s => { s with status := updateStatus s.status SentenceStatus.ProcessingInput })
      hmne rfl rfl]
    rw [show ({ st with
        sentences := st.sentences ++ [⟨nid, cmd.text, cmd.range, SentenceStatus.ProcessingInput⟩],
        tree := treeInsertAfter st.tree f nid,
        bufferedFeedback := [],
        events := st.events ++ [Event.coqAddCommand cmd.text st.version f vb] } : STMState).lastSentence
      = some l from hlast]
    dsimp only [Option.some_bind]
    rw [show getSent { st with
        sentences := st.sentences ++ [⟨nid, cmd.text, cmd.range, SentenceStatus.ProcessingInput⟩],
        tree := treeInsertAfter st.tree f nid,
        bufferedFeedback := [],
        events := st.events ++ [Event.coqAddCommand cmd.text st.version f vb],
        lastSentence := some l } l = some ls from
      getSentList_append_left st.sentences _ l ls hls]
    dsimp only
    rw [if_pos hcond]
    rfl
  have hB2 : onCoqStateStatusUpdate
      ({ st with
          sentences := st.sentences ++ [⟨nid, cmd.text, cmd.range, SentenceStatus.ProcessingInput⟩],
          tree := treeInsertAfter st.tree f nid,
          focusedSentence := some nid, lastSentence := some nid,
          bufferedFeedback := [],
          events := st.events ++ [Event.coqAddCommand cmd.text st.version f vb] } : STMState)
      nid 0 SentenceStatus.Processed w =
      { st with
          sentences := st.sentences ++ [⟨nid, cmd.text, cmd.range, SentenceStatus.Processed⟩],
          tree := treeInsertAfter st.tree f nid,
          focusedSentence := some nid, lastSentence := some nid,
          bufferedFeedback := [],
          events := st.events ++ [Event.coqAddCommand cmd.text st.version f vb]
            ++ [Event.sentenceStatusUpdate cmd.range SentenceStatus.Processed] } := by
    unfold onCoqStateStatusUpdate
    rw [show getSent ({ st with
        sentences := st.sentences ++ [⟨nid, cmd.text, cmd.range, SentenceStatus.ProcessingInput⟩],
        tree := treeInsertAfter st.tree f nid,
        focusedSentence := some nid, lastSentence := some nid,
        bufferedFeedback := [],
        events := st.events ++ [Event.coqAddCommand cmd.text st.version f vb] } : STMState) nid =
      some (⟨nid, cmd.text, cmd.range, SentenceStatus.ProcessingInput⟩ : Sent) from
      getSentList_append_self st.sentences _ hfresh]
    dsimp only
    simp only [show updateStatus SentenceStatus.ProcessingInput SentenceStatus.Processed =
      SentenceStatus.Processed from rfl]
    rw [mapSet_append_replace st.sentences
      (⟨nid, cmd.text, cmd.range, SentenceStatus.ProcessingInput⟩ : Sent)
      (⟨nid, cmd.text, cmd.range, SentenceStatus.Processed⟩ : Sent) rfl hmne]
    unfold fire
    rw [show ({ st with
        sentences := st.sentences ++ [⟨nid, cmd.text, cmd.range, SentenceStatus.Processed⟩],
        tree := treeInsertAfter st.tree f nid,
        focusedSentence := some nid, lastSentence := some nid,
        bufferedFeedback := [],
        events := st.events ++ [Event.coqAddCommand cmd.text st.version f vb] } : STMState).callbacksLive
      = true from hcb]
    dsimp only [if_pos]
    rfl
  refine ⟨?_, ?_, ?_, ?_⟩
  · rw [hA]
    exact getSentList_append_self st.sentences _ hfresh
  · rw [hA]
    simp
  · rw [hA]
  · rw [hA, hB, hB2]

/-- Witness for claim C4: feedback (5, Processed) buffered before the add
that returns state id 5 on the linear state. -/
theorem C4_buffered_feedback_witness :
    getSent (addCommand { st0 with bufferedFeedback := [⟨5, SentenceStatus.Processed, "w"⟩] }
        ⟨"C.", mkRange 0 9 0 11⟩ false (AddResponse.value 5 none)
        (fun _ => EditAtResponse.value none)).1 5 =
      some ⟨5, "C.", mkRange 0 9 0 11, SentenceStatus.Processed⟩ ∧
    (addCommand { st0 with bufferedFeedback := [⟨5, SentenceStatus.Processed, "w"⟩] }
        ⟨"C.", mkRange 0 9 0 11⟩ false (AddResponse.value 5 none)
        (fun _ => EditAtResponse.value none)).1.events =
      st0.events ++ [Event.coqAddCommand "C." 1 4 false,
        Event.sentenceStatusUpdate (mkRange 0 9 0 11) SentenceStatus.Processed] ∧
    (addCommand { st0 with bufferedFeedback := [⟨5, SentenceStatus.Processed, "w"⟩] }
        ⟨"C.", mkRange 0 9 0 11⟩ false (AddResponse.value 5 none)
        (fun _ => EditAtResponse.value none)).1 =
      onCoqStateStatusUpdate
        (addCommand { { st0 with bufferedFeedback := [⟨5, SentenceStatus.Processed, "w"⟩] } with
            bufferedFeedback := [] } ⟨"C.", mkRange 0 9 0 11⟩ false
          (AddResponse.value 5 none) (fun _ => EditAtResponse.value none)).1
        5 0 SentenceStatus.Processed "w" := by
  have h := C4_buffered_feedback { st0 with bufferedFeedback := [⟨5, SentenceStatus.Processed, "w"⟩] }
    ⟨"C.", mkRange 0 9 0 11⟩ false 5 "w" (fun _ => EditAtResponse.value none)
    4 sentC 4 sentC rfl rfl (by decide) rfl rfl (by decide) rfl (by decide) rfl
  exact ⟨h.1, h.2.1, h.2.2.2⟩

theorem positionIsBefore_false_of {c d b : Pos} (hdc : positionIsBefore d c = true)
    (hdb : positionIsBefore d b = false) : positionIsBefore c b = false := by
  rcases c with ⟨cl, cc⟩
  rcases d with ⟨dl, dc⟩
  rcases b with ⟨bl, bc⟩
  simp only [positionIsBefore, Bool.or_eq_true, Bool.and_eq_true, decide_eq_true_eq,
    beq_iff_eq, Bool.or_eq_false_iff, Bool.and_eq_false_iff, decide_eq_false_iff_not,
    beq_eq_false_iff_ne, ne_eq] at *
  omega

theorem dropWhile_eq_filter_of_sortedDesc (e : Pos) :
    ∀ l : List TextChange, sortedDesc l →
      l.dropWhile (fun c => positionIsAfterOrEqual c.range.start e) =
      l.filter (fun c => positionIsBefore c.range.start e) := by
  intro l
  induction l with
  | nil => intro _; rfl
  | cons c cs ih =>
    intro h
    rcases List.pairwise_cons.mp h with ⟨hc, hcs⟩
    rw [List.dropWhile_cons]
    cases hp : positionIsAfterOrEqual c.range.start e with
    | true =>
      have hb : positionIsBefore c.range.start e = false := by
        rw [positionIsAfterOrEqual_eq_not_before] at hp
        cases hx : positionIsBefore c.range.start e with
        | false => rfl
        | true => rw [hx] at hp; exact absurd hp (by decide)
      rw [if_pos rfl, List.filter_cons_of_neg (by simp [hb])]
      exact ih hcs
    | false =>
      have hb : positionIsBefore c.range.start e = true := by
        rw [positionIsAfterOrEqual_eq_not_before] at hp
        cases hx : positionIsBefore c.range.start e with
        | true => rfl
        | false => rw [hx] at hp; exact absurd hp (by decide)
      rw [if_neg (by decide), List.filter_cons]
      simp only [hb, if_true]
      congr 1
      rw [eq_comm, List.filter_eq_self]
      intro a ha
      exact positionIsBefore_trans_le (hc a ha) hb

theorem mem_insertDesc (c x : TextChange) :
    ∀ l : List TextChange, x ∈ insertDesc c l ↔ x = c ∨ x ∈ l := by
  intro l
  induction l with
  | nil => simp [insertDesc]
  | cons d ds ih =>
    unfold insertDesc
    by_cases hcd : positionIsAfter c.range.start d.range.start = true
    · rw [if_pos hcd]
      simp
    · rw [if_neg hcd]
      simp only [List.mem_cons, ih]
      tauto

theorem sortedDesc_insertDesc (c : TextChange) :
    ∀ l : List TextChange, sortedDesc l → sortedDesc (insertDesc c l) := by
  intro l
  induction l with
  | nil => intro _; simp [insertDesc, sortedDesc]
  | cons d ds ih =>
    intro h
    rcases List.pairwise_cons.mp h with ⟨hd, hds⟩
    unfold insertDesc
    by_cases hcd : positionIsAfter c.range.start d.range.start = true
    · rw [if_pos hcd]
      refine List.pairwise_cons.mpr ⟨?_, h⟩
      intro b hb
      rcases List.mem_cons.mp hb with hb | hb
      · subst hb
        exact positionIsBefore_asymm hcd
      · exact positionIsBefore_false_of hcd (hd b hb)
    · rw [if_neg hcd]
      refine List.pairwise_cons.mpr ⟨?_, ih hds⟩
      intro b hb
      rcases (mem_insertDesc c b ds).mp hb with hb | hb
      · subst hb
        cases hx : positionIsBefore d.range.start b.range.start with
        | false => rfl
        | true => exact absurd hx (by simpa [positionIsAfter] using hcd)
      · exact hd b hb

theorem sortedDesc_sortChangesDesc (l : List TextChange) :
    sortedDesc (sortChangesDesc l) := by
  induction l with
  | nil => simp [sortChangesDesc, sortedDesc]
  | cons c cs ih => exact sortedDesc_insertDesc c (sortChangesDesc cs) ih

theorem sortedDesc_filter (p : TextChange → Bool) (l : List TextChange)
    (h : sortedDesc l) : sortedDesc (l.filter p) :=
  List.Pairwise.sublist (List.filter_sublist l) h

theorem applyChangesLoop_eq_reconcileLoop (atc : Sent → List TextChange → Sent × Bool)
    (editAt fallback : Nat → EditAtResponse) :
    ∀ fuel (st : STMState) (cur : Option Nat) (changes : List TextChange),
      sortedDesc changes →
      applyChangesLoop atc editAt fallback fuel st cur changes =
      reconcileLoop atc editAt fallback fuel st cur changes := by
  intro fuel
  induction fuel with
  | zero => intro st cur changes _; rfl
  | succ n ih =>
    intro st cur changes h
    cases cur with
    | none => rfl
    | some curId =>
      unfold applyChangesLoop reconcileLoop
      cases hg : getSent st curId with
      | none => rfl
      | some cur =>
        dsimp only
        rw [dropWhile_eq_filter_of_sortedDesc cur.range.stop changes h]
        by_cases he :
            (changes.filter (fun c => positionIsBefore c.range.start cur.range.stop)).isEmpty = true
        · rw [if_pos he, if_pos he]
        · rw [if_neg he, if_neg he]
          exact ih _ _ _ (sortedDesc_filter _ changes h)

/-- Claim C8 (amended): `applyChanges` on a running, initialized STM with a
non-empty edit list behaves as the spec walk with the edits sorted so that
greater start positions come first: at each sentence it keeps exactly the
edits starting strictly before the sentence range end, stops when none
remain, applies the rest and, when they invalidate the sentence, cancels it
by focusing its parent — which is a no-op (no backend edit-at) when the
parent is already the focused sentence, and issues edit-at on the parent
otherwise. -/
theorem C8_applyChanges_reconciles (st : STMState) (changes : List TextChange) (v : Nat)
    (atc : Sent → List TextChange → Sent × Bool) (editAt fallback : Nat → EditAtResponse)
    (l : Nat) (hrun : st.running = true) (hne : changes ≠ [])
    (hlast : st.lastSentence = some l) :
    applyChanges st changes v atc editAt fallback =
      { reconcileLoop atc editAt fallback (st.tree.length + 1) st (some l)
          (sortChangesDesc changes) with version := v } ∧
    sortedDesc (sortChangesDesc changes) ∧
    (∀ sentId p, treeParent st.tree sentId = some p → st.focusedSentence = some p →
      cancelSentence st sentId editAt fallback = st) ∧
    (∀ sentId p, treeParent st.tree sentId = some p → st.focusedSentence ≠ some p →
      ∃ t, (cancelSentence st sentId editAt fallback).events =
        st.events ++ Event.coqEditAt p :: t) := by
  refine ⟨?_, sortedDesc_sortChangesDesc changes, ?_, ?_⟩
  · have hemp : changes.isEmpty = false := by
      cases changes with
      | nil => exact absurd rfl hne
      | cons c cs => rfl
    unfold applyChanges
    rw [hrun, hemp, hlast]
    rw [if_neg (by decide : ¬ ((((!true) : Bool) || false) = true))]
    dsimp only
    rw [applyChangesLoop_eq_reconcileLoop atc editAt fallback (st.tree.length + 1) st (some l)
      (sortChangesDesc changes) (sortedDesc_sortChangesDesc changes)]
  · intro sentId p hpar hfoc
    unfold cancelSentence
    rw [hpar]
    dsimp only
    unfold focusSentence
    rw [show (st.focusedSentence == some p) = true from by rw [hfoc]; simp]
    simp
  · intro sentId p hpar hfoc
    unfold cancelSentence
    rw [hpar]
    dsimp only
    exact focusSentence_events_mono_of_ne st p (editAt p) fallback hfoc

/-- Witness for claim C8: on the proof-jump state, one edit inside the qed
sentence; the reconciler equals the spec walk, and the cancel of sentence 4
(whose parent 2 is focused) is a no-op. -/
theorem C8_applyChanges_reconciles_witness :
    applyChanges stJ [⟨mkRange 0 3 0 4, "x"⟩] 2 applyTextChangesModel
        (fun _ => EditAtResponse.value none) (fun _ => EditAtResponse.value none) =
      { reconcileLoop applyTextChangesModel (fun _ => EditAtResponse.value none)
          (fun _ => EditAtResponse.value none) (stJ.tree.length + 1) stJ (some 4)
          (sortChangesDesc [⟨mkRange 0 3 0 4, "x"⟩]) with version := 2 } ∧
    cancelSentence stJ 4 (fun _ => EditAtResponse.value none)
        (fun _ => EditAtResponse.value none) = stJ := by
  have h := C8_applyChanges_reconciles stJ [⟨mkRange 0 3 0 4, "x"⟩] 2 applyTextChangesModel
    (fun _ => EditAtResponse.value none) (fun _ => EditAtResponse.value none) 4
    rfl (by decide) rfl
  exact ⟨h.1, h.2.2.1 4 2 (by decide) rfl⟩

end STM
